import Mathlib

/-!
Verification of `basic_adk_a2ui_example/remote_agent/agent_executor.py`.

Python strings are modelled as lists of Unicode code points (`PyStr`),
since Python `str` admits lone surrogates that Lean `Char` cannot hold.
The JSON machinery models CPython's `json` module (the default C scanner):
`raw_decode` as `rawDecode` and `json.loads` as `pyLoads`, both written as
fuel-indexed recursive descent over the code-point list, where the fuel
`length + 1` always suffices because each recursive step consumes at least
one code point.
-/

namespace A2UIExec

/-- A Python `str`: a sequence of Unicode code points (lone surrogates allowed). -/
abbrev PyStr := List Nat

/-- Convenience: embed a Lean string literal as a Python string. -/
def ofStr (s : String) : PyStr := s.data.map Char.toNat

/-- The code points Python's `str.strip()` removes (the `str.isspace` set). -/
def pySpace (c : Nat) : Bool :=
  (9 ≤ c && c ≤ 13) || c = 32 || (28 ≤ c && c ≤ 31) || c = 133 || c = 160 ||
  c = 5760 || (8192 ≤ c && c ≤ 8202) || c = 8232 || c = 8233 || c = 8239 ||
  c = 8287 || c = 12288

/-- JSON whitespace (`json`'s `' \t\n\r'`). -/
def jsonWs (c : Nat) : Bool := c = 32 || c = 9 || c = 10 || c = 13

/-- ASCII decimal digit. -/
def isDigit (c : Nat) : Bool := 48 ≤ c && c ≤ 57

/-- ASCII digit 1-9 (leading digit of a nonzero JSON integer part). -/
def isDigit19 (c : Nat) : Bool := 49 ≤ c && c ≤ 57

/-- Python `s.lstrip()`. -/
def pyLStrip (s : PyStr) : PyStr := s.dropWhile pySpace

/-- Python `s.rstrip()`. -/
def pyRStrip (s : PyStr) : PyStr := (s.reverse.dropWhile pySpace).reverse

/-- Python `s.strip()`. -/
def pyStrip (s : PyStr) : PyStr := pyLStrip (pyRStrip s)

/-- `re.search(r'[\x7b\x5b]', s)`: index of the first `{` (123) or `[` (91). -/
def findFirstBracket (s : PyStr) : Option Nat :=
  s.findIdx? (fun c => c == 123 || c == 91)

/-- `max(s.rfind(125), s.rfind(93))`: index of the last `}` or `]`, if any
(`none` models the `-1` sentinel). -/
def lastClosing (s : PyStr) : Option Nat :=
  match s.reverse.findIdx? (fun c => c == 125 || c == 93) with
  | none => none
  | some j => some (s.length - 1 - j)

/-- A parsed JSON value as Python's `json.loads` produces it.  Numbers keep
their source lexeme (Python turns them into `int`/`float`); `jnan`/`jinf`
model the `NaN`/`Infinity`/`-Infinity` constants; object pairs keep source
order and duplicates (Python's `dict` lookup is modelled as last-wins). -/
inductive JValue where
  | jnull : JValue
  | jbool : Bool → JValue
  | jnum : PyStr → JValue
  | jnan : JValue
  | jinf : Bool → JValue
  | jstr : PyStr → JValue
  | jarr : List JValue → JValue
  | jobj : List (PyStr × JValue) → JValue

mutual

/-- Decidable equality on `JValue` (the automatic derivation does not handle
the nested `List` occurrences). -/
def decEqVal : (a b : JValue) → Decidable (a = b)
  | .jnull, .jnull => isTrue rfl
  | .jnull, .jbool _ => isFalse nofun
  | .jnull, .jnum _ => isFalse nofun
  | .jnull, .jnan => isFalse nofun
  | .jnull, .jinf _ => isFalse nofun
  | .jnull, .jstr _ => isFalse nofun
  | .jnull, .jarr _ => isFalse nofun
  | .jnull, .jobj _ => isFalse nofun
  | .jbool _, .jnull => isFalse nofun
  | .jbool x, .jbool y =>
    if h : x = y then isTrue (by rw [h]) else isFalse (fun hh => h (JValue.jbool.inj hh))
  | .jbool _, .jnum _ => isFalse nofun
  | .jbool _, .jnan => isFalse nofun
  | .jbool _, .jinf _ => isFalse nofun
  | .jbool _, .jstr _ => isFalse nofun
  | .jbool _, .jarr _ => isFalse nofun
  | .jbool _, .jobj _ => isFalse nofun
  | .jnum _, .jnull => isFalse nofun
  | .jnum _, .jbool _ => isFalse nofun
  | .jnum x, .jnum y =>
    if h : x = y then isTrue (by rw [h]) else isFalse (fun hh => h (JValue.jnum.inj hh))
  | .jnum _, .jnan => isFalse nofun
  | .jnum _, .jinf _ => isFalse nofun
  | .jnum _, .jstr _ => isFalse nofun
  | .jnum _, .jarr _ => isFalse nofun
  | .jnum _, .jobj _ => isFalse nofun
  | .jnan, .jnull => isFalse nofun
  | .jnan, .jbool _ => isFalse nofun
  | .jnan, .jnum _ => isFalse nofun
  | .jnan, .jnan => isTrue rfl
  | .jnan, .jinf _ => isFalse nofun
  | .jnan, .jstr _ => isFalse nofun
  | .jnan, .jarr _ => isFalse nofun
  | .jnan, .jobj _ => isFalse nofun
  | .jinf _, .jnull => isFalse nofun
  | .jinf _, .jbool _ => isFalse nofun
  | .jinf _, .jnum _ => isFalse nofun
  | .jinf _, .jnan => isFalse nofun
  | .jinf x, .jinf y =>
    if h : x = y then isTrue (by rw [h]) else isFalse (fun hh => h (JValue.jinf.inj hh))
  | .jinf _, .jstr _ => isFalse nofun
  | .jinf _, .jarr _ => isFalse nofun
  | .jinf _, .jobj _ => isFalse nofun
  | .jstr _, .jnull => isFalse nofun
  | .jstr _, .jbool _ => isFalse nofun
  | .jstr _, .jnum _ => isFalse nofun
  | .jstr _, .jnan => isFalse nofun
  | .jstr _, .jinf _ => isFalse nofun
  | .jstr x, .jstr y =>
    if h : x = y then isTrue (by rw [h]) else isFalse (fun hh => h (JValue.jstr.inj hh))
  | .jstr _, .jarr _ => isFalse nofun
  | .jstr _, .jobj _ => isFalse nofun
  | .jarr _, .jnull => isFalse nofun
  | .jarr _, .jbool _ => isFalse nofun
  | .jarr _, .jnum _ => isFalse nofun
  | .jarr _, .jnan => isFalse nofun
  | .jarr _, .jinf _ => isFalse nofun
  | .jarr _, .jstr _ => isFalse nofun
  | .jarr x, .jarr y =>
    match decEqValList x y with
    | isTrue h => isTrue (by rw [h])
    | isFalse h => isFalse (fun hh => h (JValue.jarr.inj hh))
  | .jarr _, .jobj _ => isFalse nofun
  | .jobj _, .jnull => isFalse nofun
  | .jobj _, .jbool _ => isFalse nofun
  | .jobj _, .jnum _ => isFalse nofun
  | .jobj _, .jnan => isFalse nofun
  | .jobj _, .jinf _ => isFalse nofun
  | .jobj _, .jstr _ => isFalse nofun
  | .jobj _, .jarr _ => isFalse nofun
  | .jobj x, .jobj y =>
    match decEqValPairs x y with
    | isTrue h => isTrue (by rw [h])
    | isFalse h => isFalse (fun hh => h (JValue.jobj.inj hh))

/-- Decidable equality on lists of `JValue`. -/
def decEqValList : (a b : List JValue) → Decidable (a = b)
  | [], [] => isTrue rfl
  | [], _ :: _ => isFalse nofun
  | _ :: _, [] => isFalse nofun
  | x :: xs, y :: ys =>
    match decEqVal x y with
    | isTrue h1 =>
      match decEqValList xs ys with
      | isTrue h2 => isTrue (by rw [h1, h2])
      | isFalse h2 => isFalse (fun hh => h2 (List.cons.inj hh).2)
    | isFalse h1 => isFalse (fun hh => h1 (List.cons.inj hh).1)

/-- Decidable equality on object member lists. -/
def decEqValPairs : (a b : List (PyStr × JValue)) → Decidable (a = b)
  | [], [] => isTrue rfl
  | [], _ :: _ => isFalse nofun
  | _ :: _, [] => isFalse nofun
  | (k, v) :: xs, (k2, v2) :: ys =>
    if hk : k = k2 then
      match decEqVal v v2 with
      | isTrue h1 =>
        match decEqValPairs xs ys with
        | isTrue h2 => isTrue (by rw [hk, h1, h2])
        | isFalse h2 => isFalse (fun hh => h2 (List.cons.inj hh).2)
      | isFalse h1 =>
        isFalse (fun hh => h1 (congrArg Prod.snd (List.cons.inj hh).1))
    else isFalse (fun hh => hk (congrArg Prod.fst (List.cons.inj hh).1))

end

instance : DecidableEq JValue := decEqVal

/-- Hex digit value, as the scanner's `\uXXXX` decoding accepts it. -/
def hexVal (c : Nat) : Option Nat :=
  if isDigit c then some (c - 48)
  else if 97 ≤ c && c ≤ 102 then some (c - 87)
  else if 65 ≤ c && c ≤ 70 then some (c - 55)
  else none

/-- Four hex digits, as consumed by a `\uXXXX` escape. -/
def hex4 : PyStr → Option (Nat × PyStr)
  | a :: b :: c :: d :: r =>
    (hexVal a).bind fun va =>
      (hexVal b).bind fun vb =>
        (hexVal c).bind fun vc =>
          (hexVal d).bind fun vd =>
            some (((va * 16 + vb) * 16 + vc) * 16 + vd, r)
  | _ => none

/-- Single-character escape table of the scanner (`" \ / b f n r t`). -/
def escChar (c : Nat) : Option Nat :=
  if c = 34 then some 34 else if c = 92 then some 92 else if c = 47 then some 47
  else if c = 98 then some 8 else if c = 102 then some 12 else if c = 110 then some 10
  else if c = 114 then some 13 else if c = 116 then some 9 else none

/-- `scanstring` (strict mode) after the opening quote: decoded code points and
the remainder after the closing quote.  Mirrors CPython's scanner: unescaped
control characters are rejected, `\uXXXX` escapes are decoded, and a high
surrogate followed by a `\uXXXX` low surrogate is combined; a high surrogate
followed by `\u` with invalid hex is an error, otherwise the lone surrogate is
kept and scanning resumes at the backslash. -/
def lexString : Nat → PyStr → Option (PyStr × PyStr)
  | 0, _ => none
  | _ + 1, [] => none
  | f + 1, c :: r =>
    if c = 34 then some ([], r)
    else if c = 92 then
      match r with
      | [] => none
      | e :: r2 =>
        if e = 117 then
          match hex4 r2 with
          | none => none
          | some (v, r3) =>
            if 55296 ≤ v && v ≤ 56319 then
              if r3.take 2 = [92, 117] then
                match hex4 (r3.drop 2) with
                | none => none
                | some (v2, r5) =>
                  if 56320 ≤ v2 && v2 ≤ 57343 then
                    (lexString f r5).map
                      (fun p => ((65536 + (v - 55296) * 1024 + (v2 - 56320)) :: p.1, p.2))
                  else
                    (lexString f r3).map (fun p => (v :: p.1, p.2))
              else (lexString f r3).map (fun p => (v :: p.1, p.2))
            else (lexString f r3).map (fun p => (v :: p.1, p.2))
        else
          match escChar e with
          | some d => (lexString f r2).map (fun p => (d :: p.1, p.2))
          | none => none
    else if c < 32 then none
    else (lexString f r).map (fun p => (c :: p.1, p.2))

/-- Integer part of the number regex `(-?(0|[1-9]\d*))...`: after `0` no more
digits are taken; after a 1-9 digit the digit run is greedy. -/
def lexIntPart : PyStr → Option (PyStr × PyStr)
  | [] => none
  | c :: r =>
    if c = 48 then some ([48], r)
    else if isDigit19 c then some (c :: r.takeWhile isDigit, r.dropWhile isDigit)
    else none

/-- Fraction group `(\.\d+)?`: consumed only when a `.` is followed by at
least one digit; otherwise nothing is consumed. -/
def lexFrac : PyStr → (PyStr × PyStr)
  | [] => ([], [])
  | c :: r =>
    if c = 46 then
      if r.takeWhile isDigit = [] then ([], c :: r)
      else (46 :: r.takeWhile isDigit, r.dropWhile isDigit)
    else ([], c :: r)

/-- Optional exponent sign. -/
def expSign : PyStr → (PyStr × PyStr)
  | [] => ([], [])
  | c :: r2 => if c = 43 || c = 45 then ([c], r2) else ([], c :: r2)

/-- Exponent group `([eE][-+]?\\d+)?`: consumed only when `e`/`E`, an optional
sign, and at least one digit follow; otherwise nothing is consumed. -/
def lexExp : PyStr → (PyStr × PyStr)
  | [] => ([], [])
  | e :: r =>
    if e = 101 || e = 69 then
      if (expSign r).2.takeWhile isDigit = [] then ([], e :: r)
      else (e :: (expSign r).1 ++ (expSign r).2.takeWhile isDigit,
            (expSign r).2.dropWhile isDigit)
    else ([], e :: r)

/-- Optional leading minus sign of a number. -/
def numSign : PyStr → (PyStr × PyStr)
  | [] => ([], [])
  | c :: r => if c = 45 then ([45], r) else ([], c :: r)

/-- The scanner's number match `(-?(0|[1-9]\\d*))(\\.\\d+)?([eE][-+]?\\d+)?`,
returning the matched lexeme and the remainder. -/
def lexNumber (s : PyStr) : Option (PyStr × PyStr) :=
  match lexIntPart (numSign s).2 with
  | none => none
  | some (ip, s2) =>
    some ((numSign s).1 ++ ip ++ (lexFrac s2).1 ++ (lexExp (lexFrac s2).2).1,
          (lexExp (lexFrac s2).2).2)

/-- Strip leading JSON whitespace. -/
def skipWs (s : PyStr) : PyStr := s.dropWhile jsonWs

mutual

/-- `scan_once(s, idx)` of the `json` scanner, as a fuel-indexed function on
the remaining input: dispatch on the first code point to a string, object,
array, `null`/`true`/`false` literal, number, or `NaN`/`Infinity`/`-Infinity`
constant; anything else is `Expecting value` (`none`). -/
def parseVal : Nat → PyStr → Option (JValue × PyStr)
  | 0, _ => none
  | _ + 1, [] => none
  | f + 1, s@(c :: r) =>
      if c = 34 then
        (lexString (r.length + 1) r).map (fun p => (JValue.jstr p.1, p.2))
      else if c = 123 then
        match skipWs r with
        | [] => none
        | d :: r2 =>
          if d = 125 then some (JValue.jobj [], r2)
          else (parseObjLoop f (d :: r2) []).map (fun p => (JValue.jobj p.1, p.2))
      else if c = 91 then
        match skipWs r with
        | [] => none
        | d :: r2 =>
          if d = 93 then some (JValue.jarr [], r2)
          else (parseArrLoop f (d :: r2) []).map (fun p => (JValue.jarr p.1, p.2))
      else if s.take 4 = [110, 117, 108, 108] then some (JValue.jnull, s.drop 4)
      else if s.take 4 = [116, 114, 117, 101] then some (JValue.jbool true, s.drop 4)
      else if s.take 5 = [102, 97, 108, 115, 101] then some (JValue.jbool false, s.drop 5)
      else
        match lexNumber s with
        | some (lex, r2) => some (JValue.jnum lex, r2)
        | none =>
          if s.take 3 = [78, 97, 78] then some (JValue.jnan, s.drop 3)
          else if s.take 8 = [73, 110, 102, 105, 110, 105, 116, 121] then
            some (JValue.jinf false, s.drop 8)
          else if s.take 9 = [45, 73, 110, 102, 105, 110, 105, 116, 121] then
            some (JValue.jinf true, s.drop 9)
          else none

/-- `JSONArray` item loop, entered after `[` and whitespace when the array is
not empty: value, whitespace, then `]` to finish or `,` plus whitespace to
continue; anything else is an error. -/
def parseArrLoop : Nat → PyStr → List JValue → Option (List JValue × PyStr)
  | 0, _, _ => none
  | f + 1, s, acc =>
    match parseVal f s with
    | none => none
    | some (v, r) =>
      match skipWs r with
      | [] => none
      | d :: r2 =>
        if d = 93 then some (acc ++ [v], r2)
        else if d = 44 then parseArrLoop f (skipWs r2) (acc ++ [v])
        else none

/-- `JSONObject` member loop, entered after `{` and whitespace when the object
is not empty: a `"`-delimited key, whitespace, `:`, whitespace, a value,
whitespace, then `}` to finish or `,` plus whitespace before the next key. -/
def parseObjLoop : Nat → PyStr → List (PyStr × JValue) → Option (List (PyStr × JValue) × PyStr)
  | 0, _, _ => none
  | _ + 1, [], _ => none
  | f + 1, c :: r, acc =>
      if c = 34 then
        match lexString (r.length + 1) r with
        | none => none
        | some (k, r1) =>
          match skipWs r1 with
          | [] => none
          | d :: r2 =>
            if d = 58 then
              match parseVal f (skipWs r2) with
              | none => none
              | some (v, r3) =>
                match skipWs r3 with
                | [] => none
                | e :: r4 =>
                  if e = 125 then some (acc ++ [(k, v)], r4)
                  else if e = 44 then parseObjLoop f (skipWs r4) (acc ++ [(k, v)])
                  else none
            else none
      else none

end

/-- `json.JSONDecoder().raw_decode(s)`: parse one JSON value from the start of
`s`, returning it and the unconsumed remainder; `none` models the raised
`JSONDecodeError`. -/
def rawDecode (s : PyStr) : Option (JValue × PyStr) := parseVal (s.length + 1) s

/-- `json.loads(s)`: skip surrounding whitespace and require the entire input
to be consumed (`Extra data` otherwise). -/
def pyLoads (s : PyStr) : Option JValue :=
  let s1 := skipWs s
  match parseVal (s1.length + 1) s1 with
  | some (v, r) => if skipWs r = [] then some v else none
  | none => none

/-! ### Python dict semantics over parsed JSON objects -/

/-- `d.get(k)` on a Python dict built from a key/value pair list: the value of
the last pair with the given key (later duplicates overwrite earlier ones),
`none` when the key is absent. -/
def dictGet (pairs : List (PyStr × JValue)) (k : PyStr) : Option JValue :=
  ((pairs.filter (fun p => p.1 == k)).getLast?).map Prod.snd

/-- `k in d`: membership in a Python dict built from a pair list. -/
def dictMem (pairs : List (PyStr × JValue)) (k : PyStr) : Bool :=
  (dictGet pairs k).isSome

/-! ### `process_llm_output_to_a2ui_parts` -/

/-- An outbound A2A part: either `Part(root=TextPart(text=...))` or the A2UI
data part built by `create_a2ui_part`. -/
inductive A2APart where
  | textPart : PyStr → A2APart
  | a2uiPart : JValue → A2APart
deriving DecidableEq

/-- Modelled from the spec: `create_a2ui_part` lives in `a2ui_extension.py`,
which is not among the provided sources.  Per §4.2 step 7 it is an opaque
"create structured part" collaborator producing exactly one A2A data part
(with the A2UI MIME type) per message record, so it is modelled as the
injective constructor wrapping the record. -/
def create_a2ui_part (message : JValue) : A2APart := A2APart.a2uiPart message

/-- Python `str()` of a parsed JSON scalar, used by the source only on the
"neither list nor dict" fallback and in f-string interpolation.  Integer
lexemes are rendered exactly (`-0` normalises to `0`; the JSON grammar
forbids other leading zeros); for float lexemes and containers Python's
shortest-roundtrip float `repr` and quote-choosing container `repr` are not
modelled bit-exactly — the rendering keeps the lexeme / uses a fixed
single-quote form.  No claim depends on those branches. -/
def pyStrOf : JValue → PyStr
  | .jnull => ofStr "None"
  | .jbool true => ofStr "True"
  | .jbool false => ofStr "False"
  | .jnum lex => if lex = [45, 48] then [48] else lex
  | .jnan => ofStr "nan"
  | .jinf false => ofStr "inf"
  | .jinf true => ofStr "-inf"
  | .jstr s => s
  | .jarr _ => ofStr "[...]"
  | .jobj _ => ofStr "\x7b...\x7d"

/-- Lines 57-68 of `agent_executor.py`: normalise a parsed JSON value into the
ordered list of A2UI message records — a list is taken as-is; a dict with a
`messages` list contributes that list; any other dict is a single record;
`none` signals the "neither list nor dict" text fallback. -/
def a2ui_messages_of : JValue → Option (List JValue)
  | .jarr xs => some xs
  | .jobj pairs =>
    match dictGet pairs (ofStr "messages") with
    | some (.jarr ms) => some ms
    | _ => some [JValue.jobj pairs]
  | _ => none

/-- Lines 38-51 of `agent_executor.py`: the `data` computed from `json_str`
(which starts at the first bracket): first `raw_decode`, and only if that
raises, a strict `json.loads` of the slice up to the last `}`/`]`. -/
def recoveredData (json_str : PyStr) : Option JValue :=
  match rawDecode json_str with
  | some (v, _) => some v
  | none =>
    match lastClosing json_str with
    | none => none
    | some k => pyLoads (json_str.take (k + 1))

/-- `process_llm_output_to_a2ui_parts` (lines 19-78 of `agent_executor.py`). -/
def process_llm_output_to_a2ui_parts (llm_output : PyStr) : List A2APart :=
  if llm_output = [] then []
  else
    let stripped := pyStrip llm_output
    match findFirstBracket stripped with
    | none => [A2APart.textPart stripped]
    | some i =>
      match recoveredData (stripped.drop i) with
      | none => [A2APart.textPart stripped]
      | some data =>
        match a2ui_messages_of data with
        | some msgs => msgs.map create_a2ui_part
        | none => [A2APart.textPart (pyStrOf data)]

/-! ### Structured-action extraction and the `execute` handler -/

/-- Does `pat` occur as a prefix of `s`? -/
def listStarts : PyStr → PyStr → Bool
  | [], _ => true
  | _ :: _, [] => false
  | a :: as, b :: bs => a == b && listStarts as bs

/-- Python's `pat in s` on strings: does `pat` occur as a contiguous
substring of `s`? -/
def listContains (pat : PyStr) : PyStr → Bool
  | [] => listStarts pat []
  | b :: bs => listStarts pat (b :: bs) || listContains pat bs

/-- An inbound message part: a `DataPart` carries a `dict[str, Any]`
payload; every other part kind is irrelevant to the extraction loop. -/
inductive InboundPart where
  | dataPart : List (PyStr × JValue) → InboundPart
  | nonDataPart : InboundPart
deriving DecidableEq

/-- Line 94 of `agent_executor.py`: is this part a `DataPart` whose data
contains the `userAction` key? -/
def inboundHasUserAction : InboundPart → Bool
  | .dataPart d => dictMem d (ofStr "userAction")
  | .nonDataPart => false

/-- Lines 92-95: the `userAction` payload of the first matching data part,
if any (the loop `break`s at the first match). -/
def findUserActionPayload : List InboundPart → Option JValue
  | [] => none
  | InboundPart.dataPart d :: rest =>
    match dictGet d (ofStr "userAction") with
    | some pl => some pl
    | none => findUserActionPayload rest
  | InboundPart.nonDataPart :: rest => findUserActionPayload rest

/-- A value stored in `context_dict`: either a value taken from the JSON
payload or the synthesised `\x7bpath: ...\x7d` placeholder string. -/
inductive PyVal where
  | fromJson : JValue → PyVal
  | pyString : PyStr → PyVal
deriving DecidableEq

/-- A `context_dict` key: `item.get("key")`.  `none` is Python `None`
(either a missing `key` member or an explicit JSON `null`, which Python
conflates into the same object). -/
abbrev CtxKey := Option JValue

/-- Python `==` between context-dict keys.  String, boolean, `None` and
identical-lexeme number keys are modelled exactly; Python's cross-type
numeric equalities (`True == 1`, `1 == 1.0`) are not modelled — no claim
exercises non-string keys. -/
def ctxKeyEq : CtxKey → CtxKey → Bool
  | none, none => true
  | some a, some b => decide (a = b)
  | _, _ => false

/-- `context_dict[key] = v` on an insertion-ordered Python dict: overwrite
the value of an existing equal key in place, else append. -/
def ctxInsert (m : List (CtxKey × PyVal)) (k : CtxKey) (v : PyVal) : List (CtxKey × PyVal) :=
  if m.any (fun q => ctxKeyEq q.1 k) then
    m.map (fun q => if ctxKeyEq q.1 k then (q.1, v) else q)
  else m ++ [(k, v)]

/-- The four value tags probed by lines 104-111, in source order. -/
def valueTags : List PyStr :=
  [ofStr "literalString", ofStr "literalNumber", ofStr "literalBoolean", ofStr "path"]

/-- `context_dict[key] = v`, checking hashability first: Python raises
`TypeError` for an unhashable (list/dict) key. -/
def ctxInsertChecked (m : List (CtxKey × PyVal)) (k : CtxKey) (v : PyVal) :
    Except PyStr (List (CtxKey × PyVal)) :=
  match k with
  | some (.jarr _) => .error (ofStr "TypeError")
  | some (.jobj _) => .error (ofStr "TypeError")
  | _ => .ok (ctxInsert m k v)

/-- Lines 101-111: process one entry of the `context` array.  A non-dict
entry has no `.get` (`AttributeError`).  For a dict entry, `val` is the
`value` member (default `\x7b\x7d`); when `val` is a dict the four tags are
probed in order and the first present one is unwrapped (`path` through the
placeholder string); a dict `val` with no tag contributes nothing.  When
`val` is a string or list, Python's `in` is a substring/membership test and
a hit leads to the `val[...]` indexing `TypeError`; `in` on other values
raises `TypeError` directly. -/
def unwrapCtxItem (acc : List (CtxKey × PyVal)) (item : JValue) :
    Except PyStr (List (CtxKey × PyVal)) :=
  match item with
  | .jobj ps =>
    let key : CtxKey :=
      match dictGet ps (ofStr "key") with
      | none => none
      | some .jnull => none
      | some v => some v
    let val : JValue := (dictGet ps (ofStr "value")).getD (.jobj [])
    match val with
    | .jobj vps =>
      if dictMem vps (ofStr "literalString") then
        ctxInsertChecked acc key (.fromJson ((dictGet vps (ofStr "literalString")).getD .jnull))
      else if dictMem vps (ofStr "literalNumber") then
        ctxInsertChecked acc key (.fromJson ((dictGet vps (ofStr "literalNumber")).getD .jnull))
      else if dictMem vps (ofStr "literalBoolean") then
        ctxInsertChecked acc key (.fromJson ((dictGet vps (ofStr "literalBoolean")).getD .jnull))
      else if dictMem vps (ofStr "path") then
        ctxInsertChecked acc key
          (.pyString (ofStr "\x7bpath: " ++ pyStrOf ((dictGet vps (ofStr "path")).getD .jnull) ++ ofStr "\x7d"))
      else .ok acc
    | .jstr cs =>
      if valueTags.any (fun tg => listContains tg cs) then .error (ofStr "TypeError") else .ok acc
    | .jarr xs =>
      if valueTags.any (fun tg => xs.contains (JValue.jstr tg)) then .error (ofStr "TypeError")
      else .ok acc
    | _ => .error (ofStr "TypeError")
  | _ => .error (ofStr "AttributeError")

/-- Lowercase hex digit. -/
def toHexDigit (n : Nat) : Nat := if n < 10 then 48 + n else 87 + n

/-- A `\uXXXX` escape for a BMP code point. -/
def u4 (n : Nat) : PyStr :=
  [92, 117, toHexDigit (n / 4096 % 16), toHexDigit (n / 256 % 16),
   toHexDigit (n / 16 % 16), toHexDigit (n % 16)]

/-- `json.dumps` escaping of one code point (default `ensure_ascii=True`):
the two-character escapes, `\u00xx` for other controls, `\uXXXX` for
non-ASCII, surrogate pairs beyond the BMP. -/
def jsonEscapeChar (c : Nat) : PyStr :=
  if c = 34 then [92, 34] else if c = 92 then [92, 92]
  else if c = 8 then [92, 98] else if c = 12 then [92, 102] else if c = 10 then [92, 110]
  else if c = 13 then [92, 114] else if c = 9 then [92, 116]
  else if c < 32 then u4 c
  else if c < 127 then [c]
  else if c ≤ 65535 then u4 c
  else u4 (55296 + (c - 65536) / 1024) ++ u4 (56320 + (c - 65536) % 1024)

/-- `json.dumps` rendering of a string. -/
def jsonQuote (s : PyStr) : PyStr := 34 :: (s.map jsonEscapeChar).flatten ++ [34]

mutual

/-- `json.dumps` of a parsed JSON value (default separators `', '`/`': '`).
Integer lexemes render exactly; float lexemes keep their source form (the
shortest-roundtrip float `repr` is not modelled); object pair lists are
rendered as written (a Python dict cannot hold duplicate keys, so parsed
objects never carry duplicates into `dumps`).  No claim depends on the
float branch. -/
def dumpsJ : JValue → PyStr
  | .jnull => ofStr "null"
  | .jbool true => ofStr "true"
  | .jbool false => ofStr "false"
  | .jnum lex => if lex = [45, 48] then [48] else lex
  | .jnan => ofStr "NaN"
  | .jinf false => ofStr "Infinity"
  | .jinf true => ofStr "-Infinity"
  | .jstr s => jsonQuote s
  | .jarr xs => 91 :: dumpsJItems xs ++ [93]
  | .jobj ps => 123 :: dumpsJMembers ps ++ [125]

/-- Comma-separated array items. -/
def dumpsJItems : List JValue → PyStr
  | [] => []
  | [x] => dumpsJ x
  | x :: y :: rest => dumpsJ x ++ [44, 32] ++ dumpsJItems (y :: rest)

/-- Comma-separated object members. -/
def dumpsJMembers : List (PyStr × JValue) → PyStr
  | [] => []
  | [(k, v)] => jsonQuote k ++ [58, 32] ++ dumpsJ v
  | (k, v) :: y :: rest => jsonQuote k ++ [58, 32] ++ dumpsJ v ++ [44, 32] ++ dumpsJMembers (y :: rest)

end

/-- `json.dumps` of one `context_dict` value. -/
def dumpsPyVal : PyVal → PyStr
  | .fromJson v => dumpsJ v
  | .pyString s => jsonQuote s

/-- `json.dumps` of one `context_dict` key: string keys are escaped;
`None`/bool/number keys are coerced to their JSON text and quoted.
Unhashable keys never reach `dumps` (insertion raised `TypeError`). -/
def dumpsCtxKey : CtxKey → PyStr
  | none => jsonQuote (ofStr "null")
  | some (.jstr s) => jsonQuote s
  | some (.jbool true) => jsonQuote (ofStr "true")
  | some (.jbool false) => jsonQuote (ofStr "false")
  | some (.jnum lex) => jsonQuote (if lex = [45, 48] then [48] else lex)
  | some .jnan => jsonQuote (ofStr "NaN")
  | some (.jinf false) => jsonQuote (ofStr "Infinity")
  | some (.jinf true) => jsonQuote (ofStr "-Infinity")
  | some .jnull => jsonQuote (ofStr "null")
  | some (.jarr _) => jsonQuote (ofStr "?")
  | some (.jobj _) => jsonQuote (ofStr "?")

/-- `json.dumps(context_dict)`. -/
def dumpsCtx (m : List (CtxKey × PyVal)) : PyStr :=
  123 :: (List.intercalate [44, 32]
    (m.map (fun q => dumpsCtxKey q.1 ++ [58, 32] ++ dumpsPyVal q.2))) ++ [125]

/-- Line 113: the f-string directive handed to the LLM. -/
def userActionDirective (name : Option JValue) (m : List (CtxKey × PyVal)) : PyStr :=
  ofStr "User initiated action: '" ++
  (match name with | none => ofStr "None" | some v => pyStrOf v) ++
  ofStr "'. Action context data: " ++ dumpsCtx m ++
  ofStr ". Please use the appropriate tool to handle this."

/-- Lines 96-113: derive the directive from a `userAction` payload.
`.error` carries the name of the Python exception that escapes `execute`:
a non-dict payload has no `.get`; a non-list `context` either iterates to
items without `.get` (`AttributeError`), iterates emptily (empty string or
dict), or is not iterable (`TypeError`). -/
def buildDirective (payload : JValue) : Except PyStr PyStr :=
  match payload with
  | .jobj ps =>
    let name := dictGet ps (ofStr "name")
    let ctxv : JValue := (dictGet ps (ofStr "context")).getD (.jarr [])
    match ctxv with
    | .jarr items =>
      (items.foldlM unwrapCtxItem []).map (fun m => userActionDirective name m)
    | .jstr [] => .ok (userActionDirective name [])
    | .jobj [] => .ok (userActionDirective name [])
    | .jstr _ => .error (ofStr "AttributeError")
    | .jobj _ => .error (ofStr "AttributeError")
    | _ => .error (ofStr "TypeError")
  | _ => .error (ofStr "AttributeError")

/-- Lines 91-115: `user_action_data`, `none` when no part carries a
`userAction` key; `.error` when the loop body raises. -/
def extractUserActionDirective (parts : List InboundPart) : Except PyStr (Option PyStr) :=
  match findUserActionPayload parts with
  | none => .ok none
  | some pl => (buildDirective pl).map some

instance {ε α : Type} [DecidableEq ε] [DecidableEq α] : DecidableEq (Except ε α) := fun x y =>
  match x, y with
  | .ok a, .ok b =>
    if h : a = b then isTrue (by rw [h]) else isFalse (fun hh => h (Except.ok.inj hh))
  | .error a, .error b =>
    if h : a = b then isTrue (by rw [h]) else isFalse (fun hh => h (Except.error.inj hh))
  | .ok _, .error _ => isFalse nofun
  | .error _, .ok _ => isFalse nofun

/-- The outcome of `self._runner.run_async(...)` consumption: the
accumulated response text, or the message of the exception it raised. -/
inductive LlmOutcome where
  | ok : PyStr → LlmOutcome
  | exn : PyStr → LlmOutcome

/-- Externally observable effects of one `execute` call, in order. -/
inductive TaskEvent where
  | extensionActivated : TaskEvent
  | taskCreated : TaskEvent
  | statusWorking : TaskEvent
  | statusFailed : List A2APart → TaskEvent
  | statusCompleted : List A2APart → TaskEvent
deriving DecidableEq

/-- The request context as `execute` reads it: `context.get_user_input()
or ""`, `context.message.parts`, and whether `context.current_task` is set. -/
structure ExecCtx where
  userInputText : PyStr
  messageParts : List InboundPart
  hasCurrentTask : Bool

/-- Lines 131-134: the prompt forwarded to the runner (`msg_text`). -/
def promptOf (text : PyStr) (oa : Option PyStr) : PyStr :=
  match oa with
  | none => text
  | some d => pyStrip (text ++ [10] ++ d)

/-- `A2UIAgentExecutor.execute` (lines 87-170) as an event-trace function:
extract the optional user action; return silently when there is neither
text nor action; otherwise activate the A2UI extension (modelled from the
spec §4.4 as a non-failing side effect — `try_activate_a2ui_extension`
lives in the absent `a2ui_extension.py`), create the task if absent, move
it to `working`, run the LLM on the combined prompt, and finish with
exactly one terminal status.  `.error` models a Python exception escaping
the handler (only possible from the extraction loop). -/
def execute (ctx : ExecCtx) (llm : PyStr → LlmOutcome) : Except PyStr (List TaskEvent) := do
  let oa ← extractUserActionDirective ctx.messageParts
  if ctx.userInputText = [] ∧ oa = none then
    return []
  else
    let pre := [TaskEvent.extensionActivated] ++
      (if ctx.hasCurrentTask then [] else [TaskEvent.taskCreated]) ++
      [TaskEvent.statusWorking]
    match llm (promptOf ctx.userInputText oa) with
    | .exn m => return pre ++ [TaskEvent.statusFailed [A2APart.textPart (ofStr "Error: " ++ m)]]
    | .ok t =>
      return pre ++ [TaskEvent.statusCompleted (process_llm_output_to_a2ui_parts t)]

/-! ### `A2UIAgentExecutor.cancel` -/

/-- The names bound in the module namespace of `agent_executor.py`: its
imports (lines 2-15) and top-level definitions.  `ServerError` is not among
them. -/
def agentExecutorModuleNames : List String :=
  ["json", "logging", "re", "a2a_types", "AgentExecutor", "RequestContext",
   "EventQueue", "TaskUpdater", "UnsupportedOperationError", "Task",
   "new_agent_parts_message", "new_task", "Runner", "Aclosing", "types",
   "create_a2ui_part", "try_activate_a2ui_extension", "logger",
   "process_llm_output_to_a2ui_parts", "A2UIAgentExecutor"]

/-- What a `cancel` call can do. -/
inductive CancelOutcome where
  | raisesNameError : String → CancelOutcome
  | raisesServerErrorUnsupportedOperation : CancelOutcome
  | returnsTask : CancelOutcome
deriving DecidableEq

/-- Lines 172-173: `raise ServerError(error=UnsupportedOperationError())`.
Python resolves `ServerError` in the module globals (then builtins); if the
name is unbound the statement itself raises `NameError` before any
`ServerError` is constructed.  No task state is touched either way. -/
def A2UIAgentExecutor_cancel : CancelOutcome :=
  if agentExecutorModuleNames.contains "ServerError" then
    CancelOutcome.raisesServerErrorUnsupportedOperation
  else CancelOutcome.raisesNameError "ServerError"

end A2UIExec

section Sanity
open A2UIExec

example : rawDecode (ofStr "[1]") = some (.jarr [.jnum (ofStr "1")], []) := by decide
example : rawDecode (ofStr "[1, \"a\"] tail") =
    some (.jarr [.jnum (ofStr "1"), .jstr (ofStr "a")], ofStr " tail") := by decide
example : pyLoads (ofStr " \x7b\"a\": -1.5e2\x7d ") =
    some (.jobj [(ofStr "a", .jnum (ofStr "-1.5e2"))]) := by decide
example : pyLoads (ofStr "[1] x") = none := by decide
example : rawDecode (ofStr "[1,]") = none := by decide
example : rawDecode (ofStr "nullable") = some (.jnull, ofStr "able") := by decide
example : rawDecode (ofStr "-Infinity!") = some (.jinf true, ofStr "!") := by decide
example : rawDecode (ofStr "\"a\\u00e9\\ud83d\\ude00b\"") =
    some (.jstr [97, 233, 128512, 98], []) := by decide
example : rawDecode (ofStr "01") = some (.jnum (ofStr "0"), ofStr "1") := by decide
example : lastClosing (ofStr "[[1]") = some 3 := by decide
example : findFirstBracket (ofStr "no json") = none := by decide
example : pyStrip (ofStr "  a b\t") = ofStr "a b" := by decide

example : process_llm_output_to_a2ui_parts (ofStr "") = [] := by decide
example : process_llm_output_to_a2ui_parts (ofStr "no json here") =
    [.textPart (ofStr "no json here")] := by decide
example : process_llm_output_to_a2ui_parts (ofStr " x ") = [.textPart (ofStr "x")] := by decide
example : process_llm_output_to_a2ui_parts (ofStr "  ") = [.textPart []] := by decide
example : process_llm_output_to_a2ui_parts (ofStr "Sure! \x7b\"messages\":[\x7b\"a\":1\x7d]\x7d") =
    [.a2uiPart (.jobj [(ofStr "a", .jnum (ofStr "1"))])] := by decide
example : process_llm_output_to_a2ui_parts (ofStr "\x7b\"id\":\"x\"\x7d") =
    [.a2uiPart (.jobj [(ofStr "id", .jstr (ofStr "x"))])] := by decide
example : process_llm_output_to_a2ui_parts (ofStr "[[1]") = [.textPart (ofStr "[[1]")] := by decide
example : process_llm_output_to_a2ui_parts (ofStr "ok [1]!?") =
    [.a2uiPart (.jnum (ofStr "1"))] := by decide
example : process_llm_output_to_a2ui_parts (ofStr "see [1,2] x]") =
    [.a2uiPart (.jnum (ofStr "1")), .a2uiPart (.jnum (ofStr "2"))] := by decide
example : process_llm_output_to_a2ui_parts (ofStr "a \x7b\"x\": [1,\"?\"\x7d oops") =
    [.textPart (ofStr "a \x7b\"x\": [1,\"?\"\x7d oops")] := by decide
example : process_llm_output_to_a2ui_parts (ofStr "x \x7b\"a\":1\x7d tail]") =
    [.a2uiPart (.jobj [(ofStr "a", .jnum (ofStr "1"))])] := by decide
example : process_llm_output_to_a2ui_parts (ofStr "fence[1] end") =
    [.a2uiPart (.jnum (ofStr "1"))] := by decide
example : process_llm_output_to_a2ui_parts (ofStr "v: 3") = [.textPart (ofStr "v: 3")] := by decide

example :
    buildDirective (.jobj [(ofStr "name", .jstr (ofStr "select")),
      (ofStr "context", .jarr [.jobj [(ofStr "key", .jstr (ofStr "color")),
        (ofStr "value", .jobj [(ofStr "literalString", .jstr (ofStr "red"))])]])]) =
    .ok (ofStr "User initiated action: 'select'. Action context data: \x7b\"color\": \"red\"\x7d. Please use the appropriate tool to handle this.") := by
  decide

example : listContains (ofStr "select")
    (ofStr "User initiated action: 'select'. Action context data:") = true := by decide

example : execute ⟨ofStr "hi", [], true⟩ (fun _ => .ok []) =
    .ok [.extensionActivated, .statusWorking, .statusCompleted []] := by decide

example : execute ⟨[], [.nonDataPart], false⟩ (fun _ => .exn (ofStr "boom")) = .ok [] := by decide

example : execute ⟨ofStr "go", [], false⟩ (fun _ => .exn (ofStr "boom")) =
    .ok [.extensionActivated, .taskCreated, .statusWorking,
         .statusFailed [.textPart (ofStr "Error: boom")]] := by decide

example : A2UIAgentExecutor_cancel = .raisesNameError "ServerError" := by decide

end Sanity

namespace A2UIExec

/-! ### Whitespace helpers -/

theorem skipWs_append_of_ne_nil {s : PyStr} (t : PyStr) (h : skipWs s ≠ []) :
    skipWs (s ++ t) = skipWs s ++ t := by
  unfold skipWs at h ⊢
  rw [List.dropWhile_append]
  simp only [List.isEmpty_iff, h, if_false]

theorem skipWs_head_not_ws {s : PyStr} {c : Nat} {r : PyStr} (h : skipWs s = c :: r) :
    jsonWs c = false := by
  have hh := List.head?_dropWhile_not jsonWs s
  unfold skipWs at h
  rw [h] at hh
  simpa using hh

theorem skipWs_decomp (s : PyStr) : s = s.takeWhile jsonWs ++ skipWs s :=
  (List.takeWhile_append_dropWhile jsonWs s).symm

theorem skipWs_cons_src {s : PyStr} {c : Nat} {r : PyStr} (h : skipWs s = c :: r) :
    ∃ d s', s = d :: s' ∧ (jsonWs d = true ∨ d = c) := by
  cases s with
  | nil => simp [skipWs] at h
  | cons d s' =>
    refine ⟨d, s', rfl, ?_⟩
    by_cases hd : jsonWs d
    · exact Or.inl hd
    · right
      unfold skipWs at h
      rw [List.dropWhile_cons, if_neg (by simp [hd])] at h
      exact (List.cons.inj h).1

/-! ### Growth lemmas: a successful lex/parse is stable under raising the
fuel and appending input after the consumed prefix. -/

theorem hex4_growth {r : PyStr} {v : Nat} {r3 : PyStr} (t : PyStr)
    (h : hex4 r = some (v, r3)) : hex4 (r ++ t) = some (v, r3 ++ t) := by
  match r with
  | [] => simp [hex4] at h
  | [a] => simp [hex4] at h
  | [a, b] => simp [hex4] at h
  | [a, b, c] => simp [hex4] at h
  | a :: b :: c :: d :: rest =>
    simp only [List.cons_append]
    rw [hex4] at h
    rw [hex4]
    cases hva : hexVal a with
    | none => rw [hva] at h; simp at h
    | some va =>
      simp only [hva, Option.some_bind] at h ⊢
      cases hvb : hexVal b with
      | none => rw [hvb] at h; simp at h
      | some vb =>
        simp only [hvb, Option.some_bind] at h ⊢
        cases hvc : hexVal c with
        | none => rw [hvc] at h; simp at h
        | some vc =>
          simp only [hvc, Option.some_bind] at h ⊢
          cases hvd : hexVal d with
          | none => rw [hvd] at h; simp at h
          | some vd =>
            simp only [hvd, Option.some_bind] at h ⊢
            obtain ⟨h1, h2⟩ := Prod.mk.inj (Option.some.inj h)
            rw [h1, h2]

theorem lexString_nil (f : Nat) : lexString f [] = none := by
  cases f <;> simp [lexString]

theorem lexString_bslash (f : Nat) : lexString f [92] = none := by
  cases f <;> simp [lexString]

theorem take2_shape {r3 : PyStr} (h : r3.take 2 = [92, 117]) :
    ∃ r4, r3 = 92 :: 117 :: r4 := by
  match r3 with
  | [] => simp at h
  | [a] => simp at h
  | a :: b :: r4 =>
    simp only [List.take_succ_cons, List.take_zero] at h
    obtain ⟨h1, h2⟩ := List.cons.inj h
    obtain ⟨h2, -⟩ := List.cons.inj h2
    exact ⟨r4, by rw [h1, h2]⟩

theorem lexString_growth :
    ∀ f : Nat, ∀ {s cs rest : PyStr}, ∀ g : Nat, ∀ t : PyStr, f ≤ g →
    lexString f s = some (cs, rest) → lexString g (s ++ t) = some (cs, rest ++ t) := by
  intro f
  induction f with
  | zero => intro s cs rest g t _ h; simp [lexString] at h
  | succ f ih =>
    intro s cs rest g t hfg h
    cases g with
    | zero => exact absurd hfg (by omega)
    | succ g =>
    have hfg' : f ≤ g := Nat.le_of_succ_le_succ hfg
    cases s with
    | nil => simp [lexString] at h
    | cons c r =>
      rw [List.cons_append]
      simp only [lexString] at h ⊢
      by_cases h34 : c = 34
      · simp only [if_pos h34] at h ⊢
        obtain ⟨h1, h2⟩ := Prod.mk.inj (Option.some.inj h)
        rw [h1, h2]
      · simp only [if_neg h34] at h ⊢
        by_cases h92 : c = 92
        · simp only [if_pos h92] at h ⊢
          cases r with
          | nil => simp at h
          | cons e r2 =>
            rw [List.cons_append]
            simp only [] at h ⊢
            by_cases hu : e = 117
            · simp only [if_pos hu] at h ⊢
              cases hh4 : hex4 r2 with
              | none => simp [hh4] at h
              | some p =>
                obtain ⟨v, r3⟩ := p
                simp only [hh4] at h
                simp only [hex4_growth t hh4]
                by_cases hsur : (55296 ≤ v && v ≤ 56319) = true
                · simp only [if_pos hsur] at h ⊢
                  by_cases hp : r3.take 2 = [92, 117]
                  · obtain ⟨r4, hr3⟩ := take2_shape hp
                    subst hr3
                    simp only [if_pos hp] at h
                    rw [if_pos (by simp)]
                    simp only [List.drop_succ_cons, List.drop_zero] at h ⊢
                    simp only [List.cons_append]
                    simp only [List.drop_succ_cons, List.drop_zero]
                    cases hh4b : hex4 r4 with
                    | none => simp [hh4b] at h
                    | some q =>
                      obtain ⟨v2, r5⟩ := q
                      simp only [hh4b] at h
                      simp only [hex4_growth t hh4b]
                      by_cases hlo : (56320 ≤ v2 && v2 ≤ 57343) = true
                      · simp only [if_pos hlo] at h ⊢
                        cases hrec : lexString f r5 with
                        | none => simp [hrec] at h
                        | some p2 =>
                          obtain ⟨cs2, rest2⟩ := p2
                          simp only [hrec, Option.map_some'] at h
                          obtain ⟨h1, h2⟩ := Prod.mk.inj (Option.some.inj h)
                          rw [ih g t hfg' hrec]
                          simp only [Option.map_some']
                          rw [h1, h2]
                      · simp only [if_neg hlo] at h ⊢
                        cases hrec : lexString f (92 :: 117 :: r4) with
                        | none => simp [hrec] at h
                        | some p2 =>
                          obtain ⟨cs2, rest2⟩ := p2
                          simp only [hrec, Option.map_some'] at h
                          obtain ⟨h1, h2⟩ := Prod.mk.inj (Option.some.inj h)
                          have hext := ih g t hfg' hrec
                          simp only [List.cons_append, List.nil_append] at hext ⊢
                          rw [hext]
                          simp only [Option.map_some']
                          rw [h1, h2]
                  · simp only [if_neg hp] at h
                    cases r3 with
                    | nil => rw [lexString_nil] at h; exact absurd h (by simp)
                    | cons b1 r3tl =>
                      cases r3tl with
                      | nil =>
                        by_cases hb1 : b1 = 92
                        · subst hb1; rw [lexString_bslash] at h; exact absurd h (by simp)
                        · rw [if_neg (by
                            simp only [List.cons_append, List.nil_append]
                            cases t with
                            | nil => simp
                            | cons t0 ttl =>
                              simp only [List.take_succ_cons, List.take_zero]
                              intro hc
                              exact hb1 (List.cons.inj hc).1)]
                          cases hrec : lexString f [b1] with
                          | none => simp [hrec] at h
                          | some p2 =>
                            obtain ⟨cs2, rest2⟩ := p2
                            simp only [hrec, Option.map_some'] at h
                            obtain ⟨h1, h2⟩ := Prod.mk.inj (Option.some.inj h)
                            have hext := ih g t hfg' hrec
                            simp only [List.cons_append, List.nil_append] at hext ⊢
                            rw [hext]
                            simp only [Option.map_some']
                            rw [h1, h2]
                      | cons b2 r4 =>
                        rw [if_neg (by
                          simp only [List.cons_append]
                          simpa using hp)]
                        cases hrec : lexString f (b1 :: b2 :: r4) with
                        | none => simp [hrec] at h
                        | some p2 =>
                          obtain ⟨cs2, rest2⟩ := p2
                          simp only [hrec, Option.map_some'] at h
                          obtain ⟨h1, h2⟩ := Prod.mk.inj (Option.some.inj h)
                          have hext := ih g t hfg' hrec
                          simp only [List.cons_append, List.nil_append] at hext ⊢
                          rw [hext]
                          simp only [Option.map_some']
                          rw [h1, h2]
                · simp only [if_neg hsur] at h ⊢
                  cases hrec : lexString f r3 with
                  | none => simp [hrec] at h
                  | some p2 =>
                    obtain ⟨cs2, rest2⟩ := p2
                    simp only [hrec, Option.map_some'] at h
                    obtain ⟨h1, h2⟩ := Prod.mk.inj (Option.some.inj h)
                    rw [ih g t hfg' hrec]
                    simp only [Option.map_some']
                    rw [h1, h2]
            · simp only [if_neg hu] at h ⊢
              cases hesc : escChar e with
              | none => simp [hesc] at h
              | some d =>
                simp only [hesc] at h ⊢
                cases hrec : lexString f r2 with
                | none => simp [hrec] at h
                | some p2 =>
                  obtain ⟨cs2, rest2⟩ := p2
                  simp only [hrec, Option.map_some'] at h
                  obtain ⟨h1, h2⟩ := Prod.mk.inj (Option.some.inj h)
                  rw [ih g t hfg' hrec]
                  simp only [Option.map_some']
                  rw [h1, h2]
        · simp only [if_neg h92] at h ⊢
          by_cases h32 : c < 32
          · simp [if_pos h32] at h
          · simp only [if_neg h32] at h ⊢
            cases hrec : lexString f r with
            | none => simp [hrec] at h
            | some p2 =>
              obtain ⟨cs2, rest2⟩ := p2
              simp only [hrec, Option.map_some'] at h
              obtain ⟨h1, h2⟩ := Prod.mk.inj (Option.some.inj h)
              rw [ih g t hfg' hrec]
              simp only [Option.map_some']
              rw [h1, h2]

/-! ### Number lexing lemmas -/

/-- A code point that could extend a number lexeme to its right. -/
def numExtChar (c : Nat) : Bool := isDigit c || c = 46 || c = 101 || c = 69

theorem numExt_of_jsonWs {c : Nat} (h : jsonWs c = true) : numExtChar c = false := by
  simp only [jsonWs, Bool.or_eq_true, decide_eq_true_eq] at h
  obtain ((h | h) | h) | h := h <;> subst h <;> rfl

theorem takeWhile_append_stable {p : Nat → Bool} {u : PyStr} (t : PyStr)
    (h : u.dropWhile p ≠ []) :
    (u ++ t).takeWhile p = u.takeWhile p ∧ (u ++ t).dropWhile p = u.dropWhile p ++ t := by
  constructor
  · rw [List.takeWhile_append]
    have hlt : (u.takeWhile p).length ≠ u.length := by
      intro hl
      apply h
      have hdec := List.takeWhile_append_dropWhile p u
      have := congrArg List.length hdec
      simp only [List.length_append] at this
      have : (u.dropWhile p).length = 0 := by omega
      exact List.eq_nil_of_length_eq_zero this
    simp only [hlt, if_false]
  · rw [List.dropWhile_append]
    simp only [List.isEmpty_iff, h, if_false]

theorem take_append_stable {s l : PyStr} {n : Nat} (t : PyStr)
    (h : s.take n = l) (hl : l.length = n) :
    (s ++ t).take n = l ∧ (s ++ t).drop n = s.drop n ++ t := by
  have hn : n ≤ s.length := by
    have hlen := congrArg List.length h
    simp only [List.length_take] at hlen
    omega
  exact ⟨by rw [List.take_append_of_le_length hn, h],
         List.drop_append_of_le_length hn⟩

theorem take_cons_ne {c : Nat} {u : PyStr} {n : Nat} {a : Nat} {l : PyStr} (hc : c ≠ a) :
    (c :: u).take (n + 1) ≠ a :: l := by
  rw [List.take_succ_cons]
  intro hx
  exact hc (List.cons.inj hx).1

theorem lexNumber_head {s lex rr : PyStr} (h : lexNumber s = some (lex, rr)) :
    ∃ a s', s = a :: s' ∧ (a = 45 ∨ isDigit a = true) := by
  cases s with
  | nil => simp [lexNumber, numSign, lexIntPart] at h
  | cons a s' =>
    refine ⟨a, s', rfl, ?_⟩
    by_cases ha : a = 45
    · exact Or.inl ha
    · right
      simp only [lexNumber, numSign, if_neg ha] at h
      by_cases h48 : a = 48
      · subst h48; rfl
      · by_cases h19 : isDigit19 a = true
        · simp only [isDigit19, Bool.and_eq_true, decide_eq_true_eq] at h19
          simp only [isDigit, Bool.and_eq_true, decide_eq_true_eq]
          omega
        · rw [Bool.not_eq_true] at h19
          simp [lexIntPart, h48, h19] at h

theorem lexNumber_none_head {a : Nat} (u : PyStr)
    (h48 : a ≠ 48) (h19 : isDigit19 a = false) (h45 : a ≠ 45) :
    lexNumber (a :: u) = none := by
  simp [lexNumber, numSign, lexIntPart, h45, h48, h19]

theorem lexNumber_none_neg {b : Nat} (u : PyStr)
    (h48 : b ≠ 48) (h19 : isDigit19 b = false) :
    lexNumber (45 :: b :: u) = none := by
  simp [lexNumber, numSign, lexIntPart, h48, h19]

theorem expSign_append {r : PyStr} (t : PyStr) (hr : r ≠ []) :
    expSign (r ++ t) = ((expSign r).1, (expSign r).2 ++ t) := by
  cases r with
  | nil => exact absurd rfl hr
  | cons c r2 =>
    rw [List.cons_append, expSign, expSign]
    by_cases hc : (c = 43 || c = 45) = true
    · rw [if_pos hc, if_pos hc]
    · rw [if_neg hc, if_neg hc]
      rfl

theorem lexExp_growth {s3 : PyStr} {c0 : Nat} {rr : PyStr} (t : PyStr)
    (hb : numExtChar c0 = false) (he : (lexExp s3).2 = c0 :: rr) :
    lexExp (s3 ++ t) = ((lexExp s3).1, (c0 :: rr) ++ t) := by
  cases s3 with
  | nil => simp [lexExp] at he
  | cons e1 r3 =>
    by_cases he1 : (e1 = 101 || e1 = 69) = true
    · by_cases htw : (expSign r3).2.takeWhile isDigit = []
      · rw [lexExp, if_pos he1, if_pos htw] at he
        simp only at he
        obtain ⟨h1, -⟩ := List.cons.inj he
        subst h1
        simp only [Bool.or_eq_true, decide_eq_true_eq] at he1
        rcases he1 with h | h <;> subst h <;> simp [numExtChar] at hb
      · have hlx : lexExp (e1 :: r3) =
            (e1 :: (expSign r3).1 ++ (expSign r3).2.takeWhile isDigit,
             (expSign r3).2.dropWhile isDigit) := by
          rw [lexExp, if_pos he1, if_neg htw]
        rw [hlx] at he
        simp only at he
        have hr3 : r3 ≠ [] := by
          intro h0
          subst h0
          simp [expSign] at htw
        have hes := expSign_append t hr3
        obtain ⟨htk, hdk⟩ :=
          takeWhile_append_stable (p := isDigit) t (by rw [he]; simp)
        rw [hlx]
        simp only
        rw [List.cons_append, lexExp, if_pos he1, hes]
        simp only
        rw [htk, hdk, he, if_neg htw]
    · have hlx : lexExp (e1 :: r3) = ([], e1 :: r3) := by rw [lexExp, if_neg he1]
      rw [hlx] at he
      simp only at he
      obtain ⟨h1, h2⟩ := List.cons.inj he
      subst h1
      subst h2
      rw [hlx]
      rw [List.cons_append, lexExp, if_neg he1]

theorem lexFracExp_growth {s2 : PyStr} {c0 : Nat} {rr : PyStr} (t : PyStr)
    (hb : numExtChar c0 = false)
    (hfinal : (lexExp (lexFrac s2).2).2 = c0 :: rr) :
    lexFrac (s2 ++ t) = ((lexFrac s2).1, (lexFrac s2).2 ++ t) := by
  cases s2 with
  | nil => simp [lexFrac, lexExp] at hfinal
  | cons c1 r1 =>
    by_cases hc1 : c1 = 46
    · by_cases htw : r1.takeWhile isDigit = []
      · have hlx : lexFrac (c1 :: r1) = ([], c1 :: r1) := by
          rw [lexFrac, if_pos hc1, if_pos htw]
        rw [hlx] at hfinal
        simp only at hfinal
        subst hc1
        rw [lexExp, if_neg (by decide)] at hfinal
        simp only at hfinal
        obtain ⟨h1, -⟩ := List.cons.inj hfinal
        subst h1
        simp [numExtChar] at hb
      · have hlx : lexFrac (c1 :: r1) =
            (46 :: r1.takeWhile isDigit, r1.dropWhile isDigit) := by
          rw [lexFrac, if_pos hc1, if_neg htw]
        rw [hlx] at hfinal
        simp only at hfinal
        have hdr : r1.dropWhile isDigit ≠ [] := by
          intro h0
          rw [h0] at hfinal
          simp [lexExp] at hfinal
        obtain ⟨htk, hdk⟩ := takeWhile_append_stable (p := isDigit) t hdr
        rw [hlx]
        simp only
        rw [List.cons_append, lexFrac, if_pos hc1, htk, hdk, if_neg htw]
    · have hlx : lexFrac (c1 :: r1) = ([], c1 :: r1) := by rw [lexFrac, if_neg hc1]
      rw [hlx]
      simp only
      rw [List.cons_append, lexFrac, if_neg hc1]

theorem lexIntPart_growth {u ip s2 : PyStr} (t : PyStr)
    (h : lexIntPart u = some (ip, s2)) (hs2 : s2 ≠ []) :
    lexIntPart (u ++ t) = some (ip, s2 ++ t) := by
  cases u with
  | nil => simp [lexIntPart] at h
  | cons c r =>
    rw [List.cons_append]
    rw [lexIntPart] at h
    rw [lexIntPart]
    by_cases h48 : c = 48
    · simp only [if_pos h48] at h ⊢
      obtain ⟨h1, h2⟩ := Prod.mk.inj (Option.some.inj h)
      rw [h1, h2]
    · simp only [if_neg h48] at h ⊢
      by_cases h19 : isDigit19 c = true
      · simp only [h19, if_true] at h ⊢
        obtain ⟨h1, h2⟩ := Prod.mk.inj (Option.some.inj h)
        have hdr : r.dropWhile isDigit ≠ [] := by rw [h2]; exact hs2
        obtain ⟨htk, hdk⟩ := takeWhile_append_stable (p := isDigit) t hdr
        rw [htk, hdk, h1, h2]
      · rw [Bool.not_eq_true] at h19
        rw [h19] at h
        simp at h

theorem numSign_append {s : PyStr} (t : PyStr) (hs : s ≠ []) :
    numSign (s ++ t) = ((numSign s).1, (numSign s).2 ++ t) := by
  cases s with
  | nil => exact absurd rfl hs
  | cons c r =>
    rw [List.cons_append, numSign, numSign]
    by_cases hc : c = 45
    · rw [if_pos hc, if_pos hc]
    · rw [if_neg hc, if_neg hc]
      rfl

theorem lexNumber_growth {s lex : PyStr} {c0 : Nat} {rr : PyStr} (t : PyStr)
    (h : lexNumber s = some (lex, c0 :: rr)) (hb : numExtChar c0 = false) :
    lexNumber (s ++ t) = some (lex, (c0 :: rr) ++ t) := by
  have hs : s ≠ [] := by
    intro h0
    subst h0
    simp [lexNumber, numSign, lexIntPart] at h
  rw [lexNumber] at h
  rw [lexNumber]
  rw [numSign_append t hs]
  simp only
  cases hip : lexIntPart (numSign s).2 with
  | none => rw [hip] at h; simp at h
  | some q =>
    obtain ⟨ip, s2⟩ := q
    rw [hip] at h
    simp only at h
    obtain ⟨hlex, hfinal⟩ := Prod.mk.inj (Option.some.inj h)
    have hs2 : s2 ≠ [] := by
      intro h0
      rw [h0] at hfinal
      simp [lexFrac, lexExp] at hfinal
    rw [lexIntPart_growth t hip hs2]
    simp only
    rw [lexFracExp_growth t hb hfinal]
    simp only
    rw [lexExp_growth t hb hfinal]
    simp only
    rw [hlex]

theorem parseVal_nil (f : Nat) : parseVal f [] = none := by
  cases f <;> simp [parseVal]

theorem parseArrLoop_nil (f : Nat) (acc : List JValue) : parseArrLoop f [] acc = none := by
  cases f <;> simp [parseArrLoop, parseVal_nil]

theorem parseObjLoop_nil (f : Nat) (acc : List (PyStr × JValue)) :
    parseObjLoop f [] acc = none := by
  cases f <;> simp [parseObjLoop]

/-- Safety condition for extending a parsed value's input: either nothing is
appended, or (for numbers) the remainder starts with a code point that cannot
extend a number lexeme. -/
def numSafe (v : JValue) (rr t : PyStr) : Prop :=
  t = [] ∨ ∀ lex : PyStr, v = JValue.jnum lex → ∃ c rr2, rr = c :: rr2 ∧ numExtChar c = false

theorem numSafe_of_skipWs_delim {v : JValue} {rr : PyStr} {d : Nat} {r2 t : PyStr}
    (hsk : skipWs rr = d :: r2) (hd : numExtChar d = false) : numSafe v rr t := by
  right
  intro lex _
  obtain ⟨c1, rr2, hrr, hc1⟩ := skipWs_cons_src hsk
  refine ⟨c1, rr2, hrr, ?_⟩
  rcases hc1 with h | h
  · exact numExt_of_jsonWs h
  · rw [h]; exact hd

theorem parse_growth (t : PyStr) :
    ∀ f : Nat,
    (∀ (s : PyStr) (v : JValue) (rr : PyStr) (g : Nat), f ≤ g →
      parseVal f s = some (v, rr) → numSafe v rr t →
      parseVal g (s ++ t) = some (v, rr ++ t)) ∧
    (∀ (s : PyStr) (acc l : List JValue) (rr : PyStr) (g : Nat), f ≤ g →
      parseArrLoop f s acc = some (l, rr) →
      parseArrLoop g (s ++ t) acc = some (l, rr ++ t)) ∧
    (∀ (s : PyStr) (acc l : List (PyStr × JValue)) (rr : PyStr) (g : Nat), f ≤ g →
      parseObjLoop f s acc = some (l, rr) →
      parseObjLoop g (s ++ t) acc = some (l, rr ++ t)) := by
  intro f
  induction f with
  | zero =>
    refine ⟨?_, ?_, ?_⟩
    · intro s v rr g _ h _; simp [parseVal] at h
    · intro s acc l rr g _ h; simp [parseArrLoop] at h
    · intro s acc l rr g _ h; simp [parseObjLoop] at h
  | succ f ih =>
    obtain ⟨ihv, iha, iho⟩ := ih
    refine ⟨?_, ?_, ?_⟩
    · -- parseVal
      intro s v rr g hfg h hsafe
      cases g with
      | zero => omega
      | succ g =>
      have hfg' : f ≤ g := by omega
      cases s with
      | nil => simp [parseVal] at h
      | cons c r =>
        rw [List.cons_append]
        simp only [parseVal] at h ⊢
        by_cases h34 : c = 34
        · simp only [if_pos h34] at h ⊢
          cases hls : lexString (r.length + 1) r with
          | none => simp [hls] at h
          | some q =>
            obtain ⟨cs, rest⟩ := q
            simp only [hls, Option.map_some'] at h
            have hls2 := lexString_growth (r.length + 1) ((r ++ t).length + 1) t
              (by simp only [List.length_append]; omega) hls
            rw [hls2]
            simp only [Option.map_some']
            obtain ⟨h1, h2⟩ := Prod.mk.inj (Option.some.inj h)
            rw [h1, h2]
        · simp only [if_neg h34] at h ⊢
          by_cases h123 : c = 123
          · simp only [if_pos h123] at h ⊢
            cases hsk : skipWs r with
            | nil => simp [hsk] at h
            | cons d r2 =>
              simp only [hsk] at h
              have hsk2 : skipWs (r ++ t) = d :: (r2 ++ t) := by
                rw [skipWs_append_of_ne_nil t (by rw [hsk]; simp), hsk, List.cons_append]
              simp only [hsk2]
              by_cases hd : d = 125
              · simp only [if_pos hd] at h ⊢
                obtain ⟨h1, h2⟩ := Prod.mk.inj (Option.some.inj h)
                rw [h1, h2]
              · simp only [if_neg hd] at h ⊢
                cases hloop : parseObjLoop f (d :: r2) [] with
                | none => simp [hloop] at h
                | some q =>
                  obtain ⟨pl, rest⟩ := q
                  simp only [hloop, Option.map_some'] at h
                  have hext := iho (d :: r2) [] pl rest g hfg' hloop
                  rw [List.cons_append] at hext
                  rw [hext]
                  simp only [Option.map_some']
                  obtain ⟨h1, h2⟩ := Prod.mk.inj (Option.some.inj h)
                  rw [h1, h2]
          · simp only [if_neg h123] at h ⊢
            by_cases h91 : c = 91
            · simp only [if_pos h91] at h ⊢
              cases hsk : skipWs r with
              | nil => simp [hsk] at h
              | cons d r2 =>
                simp only [hsk] at h
                have hsk2 : skipWs (r ++ t) = d :: (r2 ++ t) := by
                  rw [skipWs_append_of_ne_nil t (by rw [hsk]; simp), hsk, List.cons_append]
                simp only [hsk2]
                by_cases hd : d = 93
                · simp only [if_pos hd] at h ⊢
                  obtain ⟨h1, h2⟩ := Prod.mk.inj (Option.some.inj h)
                  rw [h1, h2]
                · simp only [if_neg hd] at h ⊢
                  cases hloop : parseArrLoop f (d :: r2) [] with
                  | none => simp [hloop] at h
                  | some q =>
                    obtain ⟨pl, rest⟩ := q
                    simp only [hloop, Option.map_some'] at h
                    have hext := iha (d :: r2) [] pl rest g hfg' hloop
                    rw [List.cons_append] at hext
                    rw [hext]
                    simp only [Option.map_some']
                    obtain ⟨h1, h2⟩ := Prod.mk.inj (Option.some.inj h)
                    rw [h1, h2]
            · simp only [if_neg h91] at h ⊢
              by_cases hnull : (c :: r).take 4 = [110, 117, 108, 108]
              · rw [if_pos hnull] at h
                obtain ⟨htk, hdk⟩ := take_append_stable t hnull rfl
                rw [List.cons_append] at htk hdk
                rw [if_pos htk, hdk]
                obtain ⟨h1, h2⟩ := Prod.mk.inj (Option.some.inj h)
                rw [h1, h2]
              · rw [if_neg hnull] at h
                by_cases htrue : (c :: r).take 4 = [116, 114, 117, 101]
                · rw [if_pos htrue] at h
                  have hc : c = 116 := by
                    have h4 : (c :: r).take 4 = c :: r.take 3 := rfl
                    rw [h4] at htrue
                    exact (List.cons.inj htrue).1
                  obtain ⟨htk, hdk⟩ := take_append_stable t htrue rfl
                  rw [List.cons_append] at htk hdk
                  rw [if_neg (take_cons_ne (by omega)), if_pos htk, hdk]
                  obtain ⟨h1, h2⟩ := Prod.mk.inj (Option.some.inj h)
                  rw [h1, h2]
                · rw [if_neg htrue] at h
                  by_cases hfalse : (c :: r).take 5 = [102, 97, 108, 115, 101]
                  · rw [if_pos hfalse] at h
                    have hc : c = 102 := by
                      have h5 : (c :: r).take 5 = c :: r.take 4 := rfl
                      rw [h5] at hfalse
                      exact (List.cons.inj hfalse).1
                    obtain ⟨htk, hdk⟩ := take_append_stable t hfalse rfl
                    rw [List.cons_append] at htk hdk
                    rw [if_neg (take_cons_ne (by omega)), if_neg (take_cons_ne (by omega)),
                        if_pos htk, hdk]
                    obtain ⟨h1, h2⟩ := Prod.mk.inj (Option.some.inj h)
                    rw [h1, h2]
                  · rw [if_neg hfalse] at h
                    cases hln : lexNumber (c :: r) with
                    | some q =>
                      obtain ⟨lex, r2⟩ := q
                      simp only [hln] at h
                      obtain ⟨h1, h2⟩ := Prod.mk.inj (Option.some.inj h)
                      obtain ⟨a, s1, hsa, hhead⟩ := lexNumber_head hln
                      have hca : c = a := (List.cons.inj hsa).1
                      have hc45 : c = 45 ∨ isDigit c = true := by rw [hca]; exact hhead
                      have hcd : c ≠ 110 ∧ c ≠ 116 ∧ c ≠ 102 := by
                        rcases hc45 with hx | hx
                        · exact ⟨by omega, by omega, by omega⟩
                        · simp only [isDigit, Bool.and_eq_true, decide_eq_true_eq] at hx
                          exact ⟨by omega, by omega, by omega⟩
                      rw [if_neg (take_cons_ne hcd.1), if_neg (take_cons_ne hcd.2.1),
                          if_neg (take_cons_ne hcd.2.2)]
                      rcases hsafe with ht | hnum
                      · subst ht
                        simp only [List.append_nil]
                        simp only [hln]
                        exact h
                      · obtain ⟨c0, rr2, hrr, hb⟩ := hnum lex h1.symm
                        have hln3 : lexNumber (c :: r) = some (lex, c0 :: rr2) := by
                          rw [hln, h2, hrr]
                        have hng := lexNumber_growth t hln3 hb
                        rw [List.cons_append] at hng
                        simp only [hng]
                        rw [← h1, hrr]
                    | none =>
                      simp only [hln] at h
                      by_cases hnan : (c :: r).take 3 = [78, 97, 78]
                      · rw [if_pos hnan] at h
                        have hc : c = 78 := by
                          have h3 : (c :: r).take 3 = c :: r.take 2 := rfl
                          rw [h3] at hnan
                          exact (List.cons.inj hnan).1
                        rw [if_neg (take_cons_ne (by omega)), if_neg (take_cons_ne (by omega)),
                            if_neg (take_cons_ne (by omega))]
                        have hln2 : lexNumber (c :: (r ++ t)) = none := by
                          rw [hc]; exact lexNumber_none_head _ (by omega) (by decide) (by omega)
                        simp only [hln2]
                        obtain ⟨htk, hdk⟩ := take_append_stable t hnan rfl
                        rw [List.cons_append] at htk hdk
                        rw [if_pos htk, hdk]
                        obtain ⟨h1, h2⟩ := Prod.mk.inj (Option.some.inj h)
                        rw [h1, h2]
                      · rw [if_neg hnan] at h
                        by_cases hinf : (c :: r).take 8 = [73, 110, 102, 105, 110, 105, 116, 121]
                        · rw [if_pos hinf] at h
                          have hc : c = 73 := by
                            have h8 : (c :: r).take 8 = c :: r.take 7 := rfl
                            rw [h8] at hinf
                            exact (List.cons.inj hinf).1
                          rw [if_neg (take_cons_ne (by omega)), if_neg (take_cons_ne (by omega)),
                              if_neg (take_cons_ne (by omega))]
                          have hln2 : lexNumber (c :: (r ++ t)) = none := by
                            rw [hc]; exact lexNumber_none_head _ (by omega) (by decide) (by omega)
                          simp only [hln2]
                          rw [if_neg (take_cons_ne (by omega))]
                          obtain ⟨htk, hdk⟩ := take_append_stable t hinf rfl
                          rw [List.cons_append] at htk hdk
                          rw [if_pos htk, hdk]
                          obtain ⟨h1, h2⟩ := Prod.mk.inj (Option.some.inj h)
                          rw [h1, h2]
                        · rw [if_neg hinf] at h
                          by_cases hninf : (c :: r).take 9 = [45, 73, 110, 102, 105, 110, 105, 116, 121]
                          · rw [if_pos hninf] at h
                            have hc : c = 45 := by
                              have h9 : (c :: r).take 9 = c :: r.take 8 := rfl
                              rw [h9] at hninf
                              exact (List.cons.inj hninf).1
                            have hr73 : ∃ r', r = 73 :: r' := by
                              have h9 : (c :: r).take 9 = c :: r.take 8 := rfl
                              rw [h9] at hninf
                              have h8 := (List.cons.inj hninf).2
                              cases r with
                              | nil => simp at h8
                              | cons b rtl =>
                                have h8b : (b :: rtl).take 8 = b :: rtl.take 7 := rfl
                                rw [h8b] at h8
                                exact ⟨rtl, by rw [(List.cons.inj h8).1]⟩
                            obtain ⟨r1, hr⟩ := hr73
                            rw [if_neg (take_cons_ne (by omega)), if_neg (take_cons_ne (by omega)),
                                if_neg (take_cons_ne (by omega))]
                            have hln2 : lexNumber (c :: (r ++ t)) = none := by
                              rw [hc, hr, List.cons_append]
                              exact lexNumber_none_neg _ (by omega) (by decide)
                            simp only [hln2]
                            rw [if_neg (take_cons_ne (by omega)), if_neg (take_cons_ne (by omega))]
                            obtain ⟨htk, hdk⟩ := take_append_stable t hninf rfl
                            rw [List.cons_append] at htk hdk
                            rw [if_pos htk, hdk]
                            obtain ⟨h1, h2⟩ := Prod.mk.inj (Option.some.inj h)
                            rw [h1, h2]
                          · rw [if_neg hninf] at h
                            exact absurd h (by simp)
    · -- parseArrLoop
      intro s acc l rr g hfg h
      cases g with
      | zero => omega
      | succ g =>
      have hfg' : f ≤ g := by omega
      simp only [parseArrLoop] at h ⊢
      cases hpv : parseVal f s with
      | none => simp [hpv] at h
      | some p =>
        obtain ⟨v, r⟩ := p
        simp only [hpv] at h
        cases hsk : skipWs r with
        | nil => simp [hsk] at h
        | cons d r2 =>
          simp only [hsk] at h
          by_cases hd93 : d = 93
          · rw [if_pos hd93] at h
            have hsafe : numSafe v r t :=
              numSafe_of_skipWs_delim hsk (by rw [hd93]; decide)
            have hpv2 := ihv s v r g hfg' hpv hsafe
            simp only [hpv2]
            have hsk2 : skipWs (r ++ t) = d :: (r2 ++ t) := by
              rw [skipWs_append_of_ne_nil t (by rw [hsk]; simp), hsk, List.cons_append]
            simp only [hsk2]
            rw [if_pos hd93]
            obtain ⟨h1, h2⟩ := Prod.mk.inj (Option.some.inj h)
            rw [h1, h2]
          · rw [if_neg hd93] at h
            by_cases hd44 : d = 44
            · rw [if_pos hd44] at h
              have hsafe : numSafe v r t :=
                numSafe_of_skipWs_delim hsk (by rw [hd44]; decide)
              have hpv2 := ihv s v r g hfg' hpv hsafe
              simp only [hpv2]
              have hsk2 : skipWs (r ++ t) = d :: (r2 ++ t) := by
                rw [skipWs_append_of_ne_nil t (by rw [hsk]; simp), hsk, List.cons_append]
              simp only [hsk2]
              rw [if_neg hd93, if_pos hd44]
              cases hsk3 : skipWs r2 with
              | nil => rw [hsk3, parseArrLoop_nil] at h; exact absurd h (by simp)
              | cons e r3 =>
                have hsk4 : skipWs (r2 ++ t) = skipWs r2 ++ t :=
                  skipWs_append_of_ne_nil t (by rw [hsk3]; simp)
                rw [hsk4]
                exact iha (skipWs r2) (acc ++ [v]) l rr g hfg' h
            · rw [if_neg hd44] at h
              exact absurd h (by simp)
    · -- parseObjLoop
      intro s acc l rr g hfg h
      cases g with
      | zero => omega
      | succ g =>
      have hfg' : f ≤ g := by omega
      cases s with
      | nil => simp [parseObjLoop] at h
      | cons c r =>
        rw [List.cons_append]
        simp only [parseObjLoop] at h ⊢
        by_cases h34 : c = 34
        · simp only [if_pos h34] at h ⊢
          cases hls : lexString (r.length + 1) r with
          | none => simp [hls] at h
          | some q =>
            obtain ⟨k, r1⟩ := q
            simp only [hls] at h
            have hls2 := lexString_growth (r.length + 1) ((r ++ t).length + 1) t
              (by simp only [List.length_append]; omega) hls
            simp only [hls2]
            cases hsk : skipWs r1 with
            | nil => simp [hsk] at h
            | cons d r2 =>
              simp only [hsk] at h
              have hsk2 : skipWs (r1 ++ t) = d :: (r2 ++ t) := by
                rw [skipWs_append_of_ne_nil t (by rw [hsk]; simp), hsk, List.cons_append]
              simp only [hsk2]
              by_cases hd : d = 58
              · simp only [if_pos hd] at h ⊢
                cases hpv : parseVal f (skipWs r2) with
                | none => simp [hpv] at h
                | some p =>
                  obtain ⟨v, r3⟩ := p
                  simp only [hpv] at h
                  cases hq : skipWs r2 with
                  | nil => rw [hq, parseVal_nil] at hpv; exact absurd hpv (by simp)
                  | cons q0 q1 =>
                    have hskr2 : skipWs (r2 ++ t) = skipWs r2 ++ t :=
                      skipWs_append_of_ne_nil t (by rw [hq]; simp)
                    rw [hskr2]
                    cases hsk3 : skipWs r3 with
                    | nil => simp [hsk3] at h
                    | cons e r4 =>
                      simp only [hsk3] at h
                      have hsk4 : skipWs (r3 ++ t) = e :: (r4 ++ t) := by
                        rw [skipWs_append_of_ne_nil t (by rw [hsk3]; simp), hsk3, List.cons_append]
                      by_cases he125 : e = 125
                      · rw [if_pos he125] at h
                        have hsafe : numSafe v r3 t :=
                          numSafe_of_skipWs_delim hsk3 (by rw [he125]; decide)
                        have hpv2 := ihv (skipWs r2) v r3 g hfg' hpv hsafe
                        simp only [hpv2]
                        simp only [hsk4]
                        rw [if_pos he125]
                        obtain ⟨h1, h2⟩ := Prod.mk.inj (Option.some.inj h)
                        rw [h1, h2]
                      · rw [if_neg he125] at h
                        by_cases he44 : e = 44
                        · rw [if_pos he44] at h
                          have hsafe : numSafe v r3 t :=
                            numSafe_of_skipWs_delim hsk3 (by rw [he44]; decide)
                          have hpv2 := ihv (skipWs r2) v r3 g hfg' hpv hsafe
                          simp only [hpv2]
                          simp only [hsk4]
                          rw [if_neg he125, if_pos he44]
                          cases hsk5 : skipWs r4 with
                          | nil => rw [hsk5, parseObjLoop_nil] at h; exact absurd h (by simp)
                          | cons e2 r5 =>
                            have hsk6 : skipWs (r4 ++ t) = skipWs r4 ++ t :=
                              skipWs_append_of_ne_nil t (by rw [hsk5]; simp)
                            rw [hsk6]
                            exact iho (skipWs r4) (acc ++ [(k, v)]) l rr g hfg' h
                        · rw [if_neg he44] at h
                          exact absurd h (by simp)
              · simp only [if_neg hd] at h
                exact absurd h (by simp)
        · simp only [if_neg h34] at h
          exact absurd h (by simp)

/-! ### Prefix lemmas: a successful parse splits its input into the consumed
prefix and the returned remainder. -/

theorem pre_comp {x y z : PyStr} (h : ∃ p, y = p ++ z) : ∃ p, x ++ y = p ++ z := by
  obtain ⟨p, hp⟩ := h
  exact ⟨x ++ p, by rw [hp, List.append_assoc]⟩

theorem pre_refl {z : PyStr} : ∃ p : PyStr, z = p ++ z := ⟨[], rfl⟩

theorem hex4_consumes {u : PyStr} {v : Nat} {r3 : PyStr} (h : hex4 u = some (v, r3)) :
    ∃ p, u = p ++ r3 := by
  match u with
  | [] => simp [hex4] at h
  | [a] => simp [hex4] at h
  | [a, b] => simp [hex4] at h
  | [a, b, c] => simp [hex4] at h
  | a :: b :: c :: d :: rest =>
    rw [hex4] at h
    cases hva : hexVal a with
    | none => rw [hva] at h; simp at h
    | some va =>
      rw [hva, Option.some_bind] at h
      cases hvb : hexVal b with
      | none => rw [hvb] at h; simp at h
      | some vb =>
        rw [hvb, Option.some_bind] at h
        cases hvc : hexVal c with
        | none => rw [hvc] at h; simp at h
        | some vc =>
          rw [hvc, Option.some_bind] at h
          cases hvd : hexVal d with
          | none => rw [hvd] at h; simp at h
          | some vd =>
            rw [hvd, Option.some_bind] at h
            obtain ⟨-, h2⟩ := Prod.mk.inj (Option.some.inj h)
            exact ⟨[a, b, c, d], by rw [h2]; rfl⟩

theorem lexString_consumes :
    ∀ f : Nat, ∀ {s cs rest : PyStr}, lexString f s = some (cs, rest) →
    ∃ p, s = p ++ rest := by
  intro f
  induction f with
  | zero => intro s cs rest h; simp [lexString] at h
  | succ f ih =>
    intro s cs rest h
    cases s with
    | nil => simp [lexString] at h
    | cons c r =>
      simp only [lexString] at h
      by_cases h34 : c = 34
      · rw [if_pos h34] at h
        obtain ⟨-, h2⟩ := Prod.mk.inj (Option.some.inj h)
        exact ⟨[c], by rw [h2]; rfl⟩
      · rw [if_neg h34] at h
        by_cases h92 : c = 92
        · rw [if_pos h92] at h
          cases r with
          | nil => simp at h
          | cons e r2 =>
            simp only [] at h
            by_cases hu : e = 117
            · rw [if_pos hu] at h
              cases hh4 : hex4 r2 with
              | none => simp [hh4] at h
              | some q =>
                obtain ⟨v, r3⟩ := q
                simp only [hh4] at h
                obtain ⟨p4, hp4⟩ := hex4_consumes hh4
                by_cases hsur : (55296 ≤ v && v ≤ 56319) = true
                · rw [if_pos hsur] at h
                  by_cases hp2 : r3.take 2 = [92, 117]
                  · obtain ⟨r4, hr3⟩ := take2_shape hp2
                    rw [if_pos hp2] at h
                    cases hh4b : hex4 (r3.drop 2) with
                    | none => simp [hh4b] at h
                    | some q2 =>
                      obtain ⟨v2, r5⟩ := q2
                      simp only [hh4b] at h
                      have hdrop : r3.drop 2 = r4 := by rw [hr3]; rfl
                      obtain ⟨p4b, hp4b⟩ := hex4_consumes hh4b
                      rw [hdrop] at hp4b
                      by_cases hlo : (56320 ≤ v2 && v2 ≤ 57343) = true
                      · rw [if_pos hlo] at h
                        cases hrec : lexString f r5 with
                        | none => simp [hrec] at h
                        | some p2 =>
                          obtain ⟨cs2, rest2⟩ := p2
                          simp only [hrec, Option.map_some'] at h
                          obtain ⟨-, h2⟩ := Prod.mk.inj (Option.some.inj h)
                          obtain ⟨pre, hpre⟩ := ih hrec
                          rw [← h2]
                          refine pre_comp (x := [c, e]) ?_
                          rw [hp4, hr3]
                          refine pre_comp ?_
                          refine pre_comp (x := [92, 117]) ?_
                          rw [hp4b]
                          exact pre_comp ⟨pre, hpre⟩
                      · rw [if_neg hlo] at h
                        cases hrec : lexString f r3 with
                        | none => simp [hrec] at h
                        | some p2 =>
                          obtain ⟨cs2, rest2⟩ := p2
                          simp only [hrec, Option.map_some'] at h
                          obtain ⟨-, h2⟩ := Prod.mk.inj (Option.some.inj h)
                          obtain ⟨pre, hpre⟩ := ih hrec
                          rw [← h2]
                          refine pre_comp (x := [c, e]) ?_
                          rw [hp4]
                          exact pre_comp ⟨pre, hpre⟩
                  · rw [if_neg hp2] at h
                    cases hrec : lexString f r3 with
                    | none => simp [hrec] at h
                    | some p2 =>
                      obtain ⟨cs2, rest2⟩ := p2
                      simp only [hrec, Option.map_some'] at h
                      obtain ⟨-, h2⟩ := Prod.mk.inj (Option.some.inj h)
                      obtain ⟨pre, hpre⟩ := ih hrec
                      rw [← h2]
                      refine pre_comp (x := [c, e]) ?_
                      rw [hp4]
                      exact pre_comp ⟨pre, hpre⟩
                · rw [if_neg hsur] at h
                  cases hrec : lexString f r3 with
                  | none => simp [hrec] at h
                  | some p2 =>
                    obtain ⟨cs2, rest2⟩ := p2
                    simp only [hrec, Option.map_some'] at h
                    obtain ⟨-, h2⟩ := Prod.mk.inj (Option.some.inj h)
                    obtain ⟨pre, hpre⟩ := ih hrec
                    rw [← h2]
                    refine pre_comp (x := [c, e]) ?_
                    rw [hp4]
                    exact pre_comp ⟨pre, hpre⟩
            · rw [if_neg hu] at h
              cases hesc : escChar e with
              | none => simp [hesc] at h
              | some d =>
                simp only [hesc] at h
                cases hrec : lexString f r2 with
                | none => simp [hrec] at h
                | some p2 =>
                  obtain ⟨cs2, rest2⟩ := p2
                  simp only [hrec, Option.map_some'] at h
                  obtain ⟨-, h2⟩ := Prod.mk.inj (Option.some.inj h)
                  obtain ⟨pre, hpre⟩ := ih hrec
                  rw [← h2]
                  exact pre_comp (x := [c, e]) ⟨pre, hpre⟩
        · rw [if_neg h92] at h
          by_cases h32 : c < 32
          · rw [if_pos h32] at h; simp at h
          · rw [if_neg h32] at h
            cases hrec : lexString f r with
            | none => simp [hrec] at h
            | some p2 =>
              obtain ⟨cs2, rest2⟩ := p2
              simp only [hrec, Option.map_some'] at h
              obtain ⟨-, h2⟩ := Prod.mk.inj (Option.some.inj h)
              obtain ⟨pre, hpre⟩ := ih hrec
              rw [← h2]
              exact pre_comp (x := [c]) ⟨pre, hpre⟩

theorem numSign_consumes (s : PyStr) : s = (numSign s).1 ++ (numSign s).2 := by
  cases s with
  | nil => rfl
  | cons c r =>
    rw [numSign]
    by_cases hc : c = 45
    · rw [if_pos hc, hc]; rfl
    · rw [if_neg hc]; rfl

theorem lexIntPart_consumes {u ip s2 : PyStr} (h : lexIntPart u = some (ip, s2)) :
    ∃ p, u = p ++ s2 := by
  cases u with
  | nil => simp [lexIntPart] at h
  | cons c r =>
    rw [lexIntPart] at h
    by_cases h48 : c = 48
    · rw [if_pos h48] at h
      obtain ⟨-, h2⟩ := Prod.mk.inj (Option.some.inj h)
      exact ⟨[c], by rw [← h2, h48]; rfl⟩
    · rw [if_neg h48] at h
      by_cases h19 : isDigit19 c = true
      · rw [if_pos h19] at h
        obtain ⟨-, h2⟩ := Prod.mk.inj (Option.some.inj h)
        refine ⟨c :: r.takeWhile isDigit, ?_⟩
        rw [← h2, List.cons_append, List.takeWhile_append_dropWhile]
      · rw [Bool.not_eq_true] at h19
        rw [h19] at h
        simp at h

theorem lexFrac_consumes (s2 : PyStr) : s2 = (lexFrac s2).1 ++ (lexFrac s2).2 := by
  cases s2 with
  | nil => rfl
  | cons c r =>
    rw [lexFrac]
    by_cases hc : c = 46
    · rw [if_pos hc]
      by_cases htw : r.takeWhile isDigit = []
      · rw [if_pos htw]; rfl
      · rw [if_neg htw]
        subst hc
        simp only
        rw [List.cons_append, List.takeWhile_append_dropWhile]
    · rw [if_neg hc]; rfl

theorem expSign_consumes (r : PyStr) : r = (expSign r).1 ++ (expSign r).2 := by
  cases r with
  | nil => rfl
  | cons c r2 =>
    rw [expSign]
    by_cases hc : (c = 43 || c = 45) = true
    · rw [if_pos hc]; rfl
    · rw [if_neg hc]; rfl

theorem lexExp_consumes (s3 : PyStr) : s3 = (lexExp s3).1 ++ (lexExp s3).2 := by
  cases s3 with
  | nil => rfl
  | cons e r =>
    rw [lexExp]
    by_cases he : (e = 101 || e = 69) = true
    · rw [if_pos he]
      by_cases htw : (expSign r).2.takeWhile isDigit = []
      · rw [if_pos htw]; rfl
      · rw [if_neg htw]
        simp only
        rw [List.cons_append]
        congr 1
        show r = ((expSign r).1 ++ (expSign r).2.takeWhile isDigit) ++
          (expSign r).2.dropWhile isDigit
        rw [List.append_assoc, List.takeWhile_append_dropWhile]
        exact expSign_consumes r
    · rw [if_neg he]; rfl

theorem lexNumber_consumes {s lex rr : PyStr} (h : lexNumber s = some (lex, rr)) :
    ∃ p, s = p ++ rr := by
  rw [lexNumber] at h
  cases hip : lexIntPart (numSign s).2 with
  | none => rw [hip] at h; simp at h
  | some q =>
    obtain ⟨ip, s2⟩ := q
    rw [hip] at h
    simp only at h
    obtain ⟨-, h2⟩ := Prod.mk.inj (Option.some.inj h)
    obtain ⟨p1, hp1⟩ := lexIntPart_consumes hip
    rw [← h2]
    refine ⟨(numSign s).1 ++ (p1 ++ ((lexFrac s2).1 ++ (lexExp (lexFrac s2).2).1)), ?_⟩
    calc s = (numSign s).1 ++ (numSign s).2 := numSign_consumes s
    _ = (numSign s).1 ++ (p1 ++ s2) := by rw [← hp1]
    _ = (numSign s).1 ++ (p1 ++ ((lexFrac s2).1 ++ (lexFrac s2).2)) := by rw [← lexFrac_consumes]
    _ = (numSign s).1 ++ (p1 ++ ((lexFrac s2).1 ++ ((lexExp (lexFrac s2).2).1 ++ (lexExp (lexFrac s2).2).2))) := by
        rw [← lexExp_consumes]
    _ = ((numSign s).1 ++ (p1 ++ ((lexFrac s2).1 ++ (lexExp (lexFrac s2).2).1))) ++ (lexExp (lexFrac s2).2).2 := by
        simp [List.append_assoc]

theorem skipWs_consumes (s : PyStr) : s = s.takeWhile jsonWs ++ skipWs s :=
  (List.takeWhile_append_dropWhile jsonWs s).symm

theorem parse_consumes :
    ∀ f : Nat,
    (∀ {s : PyStr} {v : JValue} {rr : PyStr},
      parseVal f s = some (v, rr) → ∃ p, s = p ++ rr) ∧
    (∀ {s : PyStr} {acc l : List JValue} {rr : PyStr},
      parseArrLoop f s acc = some (l, rr) → ∃ p, s = p ++ rr) ∧
    (∀ {s : PyStr} {acc l : List (PyStr × JValue)} {rr : PyStr},
      parseObjLoop f s acc = some (l, rr) → ∃ p, s = p ++ rr) := by
  intro f
  induction f with
  | zero =>
    refine ⟨?_, ?_, ?_⟩
    · intro s v rr h; simp [parseVal] at h
    · intro s acc l rr h; simp [parseArrLoop] at h
    · intro s acc l rr h; simp [parseObjLoop] at h
  | succ f ih =>
    obtain ⟨ihv, iha, iho⟩ := ih
    refine ⟨?_, ?_, ?_⟩
    · intro s v rr h
      cases s with
      | nil => simp [parseVal] at h
      | cons c r =>
        simp only [parseVal] at h
        by_cases h34 : c = 34
        · simp only [if_pos h34] at h
          cases hls : lexString (r.length + 1) r with
          | none => simp [hls] at h
          | some q =>
            obtain ⟨cs, rest⟩ := q
            simp only [hls, Option.map_some'] at h
            obtain ⟨-, h2⟩ := Prod.mk.inj (Option.some.inj h)
            rw [← h2]
            exact pre_comp (x := [c]) (lexString_consumes _ hls)
        · simp only [if_neg h34] at h
          by_cases h123 : c = 123
          · simp only [if_pos h123] at h
            cases hsk : skipWs r with
            | nil => simp [hsk] at h
            | cons d r2 =>
              simp only [hsk] at h
              by_cases hd : d = 125
              · simp only [if_pos hd] at h
                obtain ⟨-, h2⟩ := Prod.mk.inj (Option.some.inj h)
                rw [← h2]
                refine pre_comp (x := [c]) ?_
                rw [skipWs_consumes r, hsk]
                refine ⟨r.takeWhile jsonWs ++ [d], ?_⟩
                simp [List.append_assoc]
              · simp only [if_neg hd] at h
                cases hloop : parseObjLoop f (d :: r2) [] with
                | none => simp [hloop] at h
                | some q =>
                  obtain ⟨pl, rest⟩ := q
                  simp only [hloop, Option.map_some'] at h
                  obtain ⟨-, h2⟩ := Prod.mk.inj (Option.some.inj h)
                  rw [← h2]
                  refine pre_comp (x := [c]) ?_
                  rw [skipWs_consumes r, hsk]
                  exact pre_comp (iho hloop)
          · simp only [if_neg h123] at h
            by_cases h91 : c = 91
            · simp only [if_pos h91] at h
              cases hsk : skipWs r with
              | nil => simp [hsk] at h
              | cons d r2 =>
                simp only [hsk] at h
                by_cases hd : d = 93
                · simp only [if_pos hd] at h
                  obtain ⟨-, h2⟩ := Prod.mk.inj (Option.some.inj h)
                  rw [← h2]
                  refine pre_comp (x := [c]) ?_
                  rw [skipWs_consumes r, hsk]
                  refine ⟨r.takeWhile jsonWs ++ [d], ?_⟩
                  simp [List.append_assoc]
                · simp only [if_neg hd] at h
                  cases hloop : parseArrLoop f (d :: r2) [] with
                  | none => simp [hloop] at h
                  | some q =>
                    obtain ⟨pl, rest⟩ := q
                    simp only [hloop, Option.map_some'] at h
                    obtain ⟨-, h2⟩ := Prod.mk.inj (Option.some.inj h)
                    rw [← h2]
                    refine pre_comp (x := [c]) ?_
                    rw [skipWs_consumes r, hsk]
                    exact pre_comp (iha hloop)
            · simp only [if_neg h91] at h
              by_cases hnull : (c :: r).take 4 = [110, 117, 108, 108]
              · rw [if_pos hnull] at h
                obtain ⟨-, h2⟩ := Prod.mk.inj (Option.some.inj h)
                rw [← h2]
                exact ⟨(c :: r).take 4, (List.take_append_drop 4 (c :: r)).symm⟩
              · rw [if_neg hnull] at h
                by_cases htrue : (c :: r).take 4 = [116, 114, 117, 101]
                · rw [if_pos htrue] at h
                  obtain ⟨-, h2⟩ := Prod.mk.inj (Option.some.inj h)
                  rw [← h2]
                  exact ⟨(c :: r).take 4, (List.take_append_drop 4 (c :: r)).symm⟩
                · rw [if_neg htrue] at h
                  by_cases hfalse : (c :: r).take 5 = [102, 97, 108, 115, 101]
                  · rw [if_pos hfalse] at h
                    obtain ⟨-, h2⟩ := Prod.mk.inj (Option.some.inj h)
                    rw [← h2]
                    exact ⟨(c :: r).take 5, (List.take_append_drop 5 (c :: r)).symm⟩
                  · rw [if_neg hfalse] at h
                    cases hln : lexNumber (c :: r) with
                    | some q =>
                      obtain ⟨lex, r2⟩ := q
                      simp only [hln] at h
                      obtain ⟨-, h2⟩ := Prod.mk.inj (Option.some.inj h)
                      rw [← h2]
                      exact lexNumber_consumes hln
                    | none =>
                      simp only [hln] at h
                      by_cases hnan : (c :: r).take 3 = [78, 97, 78]
                      · rw [if_pos hnan] at h
                        obtain ⟨-, h2⟩ := Prod.mk.inj (Option.some.inj h)
                        rw [← h2]
                        exact ⟨(c :: r).take 3, (List.take_append_drop 3 (c :: r)).symm⟩
                      · rw [if_neg hnan] at h
                        by_cases hinf : (c :: r).take 8 = [73, 110, 102, 105, 110, 105, 116, 121]
                        · rw [if_pos hinf] at h
                          obtain ⟨-, h2⟩ := Prod.mk.inj (Option.some.inj h)
                          rw [← h2]
                          exact ⟨(c :: r).take 8, (List.take_append_drop 8 (c :: r)).symm⟩
                        · rw [if_neg hinf] at h
                          by_cases hninf :
                              (c :: r).take 9 = [45, 73, 110, 102, 105, 110, 105, 116, 121]
                          · rw [if_pos hninf] at h
                            obtain ⟨-, h2⟩ := Prod.mk.inj (Option.some.inj h)
                            rw [← h2]
                            exact ⟨(c :: r).take 9, (List.take_append_drop 9 (c :: r)).symm⟩
                          · rw [if_neg hninf] at h
                            exact absurd h (by simp)
    · intro s acc l rr h
      cases f with
      | zero => simp [parseArrLoop, parseVal] at h
      | succ f0 =>
      rw [parseArrLoop] at h
      cases hpv : parseVal (f0 + 1) s with
      | none => rw [hpv] at h; simp at h
      | some p =>
        obtain ⟨v, r⟩ := p
        rw [hpv] at h
        simp only at h
        obtain ⟨pv, hpre⟩ := ihv hpv
        cases hsk : skipWs r with
        | nil => simp [hsk] at h
        | cons d r2 =>
          simp only [hsk] at h
          by_cases hd93 : d = 93
          · rw [if_pos hd93] at h
            obtain ⟨-, h2⟩ := Prod.mk.inj (Option.some.inj h)
            rw [← h2, hpre, skipWs_consumes r, hsk]
            refine pre_comp ?_
            refine ⟨r.takeWhile jsonWs ++ [d], ?_⟩
            simp [List.append_assoc]
          · rw [if_neg hd93] at h
            by_cases hd44 : d = 44
            · rw [if_pos hd44] at h
              obtain ⟨p2, hp2⟩ := iha h
              rw [hpre, skipWs_consumes r, hsk]
              refine pre_comp ?_
              refine pre_comp ?_
              refine pre_comp (x := [d]) ?_
              rw [skipWs_consumes r2, hp2]
              exact pre_comp ⟨p2, rfl⟩
            · rw [if_neg hd44] at h
              exact absurd h (by simp)
    · intro s acc l rr h
      cases s with
      | nil => simp [parseObjLoop] at h
      | cons c r =>
        rw [parseObjLoop] at h
        by_cases h34 : c = 34
        · rw [if_pos h34] at h
          cases hls : lexString (r.length + 1) r with
          | none => rw [hls] at h; simp at h
          | some q =>
            obtain ⟨k, r1⟩ := q
            rw [hls] at h
            simp only at h
            obtain ⟨pk, hpk⟩ := lexString_consumes _ hls
            cases hsk : skipWs r1 with
            | nil => simp [hsk] at h
            | cons d r2 =>
              simp only [hsk] at h
              by_cases hd : d = 58
              · rw [if_pos hd] at h
                cases hpv : parseVal f (skipWs r2) with
                | none => rw [hpv] at h; simp at h
                | some p =>
                  obtain ⟨v, r3⟩ := p
                  rw [hpv] at h
                  simp only at h
                  obtain ⟨pv, hpv2⟩ := ihv hpv
                  cases hsk3 : skipWs r3 with
                  | nil => simp [hsk3] at h
                  | cons e r4 =>
                    simp only [hsk3] at h
                    by_cases he125 : e = 125
                    · rw [if_pos he125] at h
                      obtain ⟨-, h2⟩ := Prod.mk.inj (Option.some.inj h)
                      rw [← h2]
                      refine pre_comp (x := [c]) ?_
                      rw [hpk]
                      refine pre_comp ?_
                      rw [skipWs_consumes r1, hsk]
                      refine pre_comp ?_
                      refine pre_comp (x := [d]) ?_
                      rw [skipWs_consumes r2, hpv2]
                      refine pre_comp ?_
                      refine pre_comp ?_
                      rw [skipWs_consumes r3, hsk3]
                      refine ⟨r3.takeWhile jsonWs ++ [e], ?_⟩
                      simp [List.append_assoc]
                    · rw [if_neg he125] at h
                      by_cases he44 : e = 44
                      · rw [if_pos he44] at h
                        obtain ⟨p2, hp2⟩ := iho h
                        refine pre_comp (x := [c]) ?_
                        rw [hpk]
                        refine pre_comp ?_
                        rw [skipWs_consumes r1, hsk]
                        refine pre_comp ?_
                        refine pre_comp (x := [d]) ?_
                        rw [skipWs_consumes r2, hpv2]
                        refine pre_comp ?_
                        refine pre_comp ?_
                        rw [skipWs_consumes r3, hsk3]
                        refine pre_comp ?_
                        refine pre_comp (x := [e]) ?_
                        rw [skipWs_consumes r4, hp2]
                        exact pre_comp ⟨p2, rfl⟩
                      · rw [if_neg he44] at h
                        exact absurd h (by simp)
              · rw [if_neg hd] at h
                exact absurd h (by simp)
        · rw [if_neg h34] at h
          exact absurd h (by simp)

/-- The array member loop always finishes by consuming a closing `]`. -/
theorem parseArrLoop_last :
    ∀ f : Nat, ∀ {s : PyStr} {acc l : List JValue} {rr : PyStr},
    parseArrLoop f s acc = some (l, rr) → ∃ p, s = p ++ 93 :: rr := by
  intro f
  induction f with
  | zero => intro s acc l rr h; simp [parseArrLoop] at h
  | succ f ih =>
    intro s acc l rr h
    rw [parseArrLoop] at h
    cases hpv : parseVal f s with
    | none => rw [hpv] at h; simp at h
    | some p =>
      obtain ⟨v, r⟩ := p
      rw [hpv] at h
      simp only at h
      obtain ⟨pv, hpre⟩ := (parse_consumes f).1 hpv
      cases hsk : skipWs r with
      | nil => simp [hsk] at h
      | cons d r2 =>
        simp only [hsk] at h
        by_cases hd93 : d = 93
        · rw [if_pos hd93] at h
          obtain ⟨-, h2⟩ := Prod.mk.inj (Option.some.inj h)
          rw [← h2, hpre, skipWs_consumes r, hsk, hd93]
          refine pre_comp ?_
          exact pre_comp ⟨[], rfl⟩
        · rw [if_neg hd93] at h
          by_cases hd44 : d = 44
          · rw [if_pos hd44] at h
            obtain ⟨p2, hp2⟩ := ih h
            rw [hpre, skipWs_consumes r, hsk]
            refine pre_comp ?_
            refine pre_comp ?_
            refine pre_comp (x := [d]) ?_
            rw [skipWs_consumes r2, hp2]
            exact pre_comp ⟨p2, rfl⟩
          · rw [if_neg hd44] at h
            exact absurd h (by simp)

/-- A `raw_decode` yielding an array starts at a `[`. -/
theorem rawDecode_arr_head {a : PyStr} {elems : List JValue} {rr : PyStr}
    (h : rawDecode a = some (JValue.jarr elems, rr)) : ∃ a0, a = 91 :: a0 := by
  unfold rawDecode at h
  cases a with
  | nil => simp [parseVal] at h
  | cons c r =>
    by_cases h91 : c = 91
    · exact ⟨r, by rw [h91]⟩
    · exfalso
      simp only [parseVal] at h
      by_cases h34 : c = 34
      · simp only [if_pos h34] at h
        cases hls : lexString (r.length + 1) r with
        | none => simp [hls] at h
        | some q => simp [hls] at h
      · simp only [if_neg h34] at h
        by_cases h123 : c = 123
        · simp only [if_pos h123] at h
          cases hsk : skipWs r with
          | nil => simp [hsk] at h
          | cons d r2 =>
            simp only [hsk] at h
            by_cases hd : d = 125
            · rw [if_pos hd] at h; simp at h
            · simp only [if_neg hd] at h
              cases hloop : parseObjLoop ((c :: r).length) (d :: r2) [] with
              | none => simp [hloop] at h
              | some q => simp [hloop] at h
        · simp only [if_neg h123, if_neg h91] at h
          by_cases hnull : (c :: r).take 4 = [110, 117, 108, 108]
          · rw [if_pos hnull] at h; simp at h
          · rw [if_neg hnull] at h
            by_cases htrue : (c :: r).take 4 = [116, 114, 117, 101]
            · rw [if_pos htrue] at h; simp at h
            · rw [if_neg htrue] at h
              by_cases hfalse : (c :: r).take 5 = [102, 97, 108, 115, 101]
              · rw [if_pos hfalse] at h; simp at h
              · rw [if_neg hfalse] at h
                cases hln : lexNumber (c :: r) with
                | some q => simp [hln] at h
                | none =>
                  simp only [hln] at h
                  by_cases hnan : (c :: r).take 3 = [78, 97, 78]
                  · rw [if_pos hnan] at h; simp at h
                  · rw [if_neg hnan] at h
                    by_cases hinf : (c :: r).take 8 = [73, 110, 102, 105, 110, 105, 116, 121]
                    · rw [if_pos hinf] at h; simp at h
                    · rw [if_neg hinf] at h
                      by_cases hninf :
                          (c :: r).take 9 = [45, 73, 110, 102, 105, 110, 105, 116, 121]
                      · rw [if_pos hninf] at h; simp at h
                      · rw [if_neg hninf] at h
                        simp at h

/-- A fully consumed `raw_decode` of an array ends at a `]`. -/
theorem rawDecode_arr_last {a : PyStr} {elems : List JValue}
    (h : rawDecode a = some (JValue.jarr elems, [])) : ∃ a1, a = a1 ++ [93] := by
  obtain ⟨a0, ha⟩ := rawDecode_arr_head h
  subst ha
  unfold rawDecode at h
  rw [parseVal] at h
  rw [if_neg (by omega), if_neg (by omega), if_pos rfl] at h
  cases hsk : skipWs a0 with
  | nil => simp [hsk] at h
  | cons d r2 =>
    simp only [hsk] at h
    by_cases hd : d = 93
    · rw [if_pos hd] at h
      obtain ⟨-, h2⟩ := Prod.mk.inj (Option.some.inj h)
      refine ⟨91 :: a0.takeWhile jsonWs, ?_⟩
      rw [List.cons_append]
      conv_lhs => rw [skipWs_consumes a0, hsk]
      rw [hd, h2]
    · rw [if_neg hd] at h
      cases hloop : parseArrLoop ((91 :: a0).length) (d :: r2) [] with
      | none => rw [hloop] at h; simp at h
      | some q =>
        obtain ⟨pl, rest⟩ := q
        rw [hloop] at h
        simp only [Option.map_some'] at h
        obtain ⟨-, h2⟩ := Prod.mk.inj (Option.some.inj h)
        obtain ⟨p2, hp2⟩ := parseArrLoop_last _ hloop
        rw [h2] at hp2
        refine ⟨91 :: (a0.takeWhile jsonWs ++ p2), ?_⟩
        rw [List.cons_append]
        conv_lhs => rw [skipWs_consumes a0, hsk, hp2]
        simp [List.append_assoc]


/-! ### Appending trailing text to a fully parsed JSON array -/

/-- A complete `raw_decode` of an array survives arbitrary appended text:
the decoder stops at the closing `]` and reports the appended text as the
unconsumed remainder. -/
theorem rawDecode_arr_append {a t : PyStr} {elems : List JValue}
    (h : rawDecode a = some (JValue.jarr elems, [])) :
    rawDecode (a ++ t) = some (JValue.jarr elems, t) := by
  unfold rawDecode at h ⊢
  have hlen : a.length + 1 ≤ (a ++ t).length + 1 := by
    rw [List.length_append]; omega
  have hg := (parse_growth t (a.length + 1)).1 a (JValue.jarr elems) [] ((a ++ t).length + 1)
    hlen h (Or.inr (fun lex hl => nomatch hl))
  simpa using hg

/-! ### Strip and bracket-search decomposition over composite inputs -/

theorem pyRStrip_append {x1 t : PyStr} {c : Nat} (hc : pySpace c = false) :
    pyRStrip ((x1 ++ [c]) ++ t) = (x1 ++ [c]) ++ pyRStrip t := by
  unfold pyRStrip
  rw [List.reverse_append, List.dropWhile_append]
  by_cases ht : (t.reverse.dropWhile pySpace).isEmpty
  · rw [if_pos ht, List.isEmpty_iff.mp ht]
    simp [List.reverse_append, List.dropWhile_cons, hc]
  · rw [if_neg ht]
    simp

theorem pyLStrip_append {p z : PyStr} {c : Nat} (hc : pySpace c = false) :
    pyLStrip (p ++ c :: z) = pyLStrip p ++ c :: z := by
  unfold pyLStrip
  rw [List.dropWhile_append]
  by_cases hp : (p.dropWhile pySpace).isEmpty
  · rw [if_pos hp, List.isEmpty_iff.mp hp]
    simp [List.dropWhile_cons, hc]
  · rw [if_neg hp]

/-- `re.search` lands on the `[` that follows a bracket-free prefix. -/
theorem findFirstBracket_skip {q w : PyStr}
    (hq : ∀ c ∈ q, ((c == 123) || (c == 91)) = false) :
    findFirstBracket (q ++ 91 :: w) = some q.length := by
  unfold findFirstBracket
  rw [List.findIdx?_append, List.findIdx?_eq_none_iff.mpr hq, Option.none_or,
    List.findIdx?_cons]
  simp

/-- Stripping an all-whitespace string leaves nothing. -/
theorem pyStrip_all_ws {s : PyStr} (h : ∀ c ∈ s, pySpace c = true) : pyStrip s = [] := by
  unfold pyStrip pyLStrip pyRStrip
  rw [List.dropWhile_eq_nil_iff.mpr (fun x hx => h x (List.mem_reverse.mp hx))]
  rfl

/-! ### The extraction loop on action-free messages -/

theorem findUserActionPayload_none {parts : List InboundPart}
    (h : ∀ part ∈ parts, inboundHasUserAction part = false) :
    findUserActionPayload parts = none := by
  induction parts with
  | nil => rfl
  | cons q rest ih =>
    have hrest := fun x hx => h x (List.mem_cons_of_mem _ hx)
    cases q with
    | nonDataPart => simpa [findUserActionPayload] using ih hrest
    | dataPart d =>
      have hd := h _ (List.mem_cons_self _ _)
      cases hg : dictGet d (ofStr "userAction") with
      | none =>
        simp only [findUserActionPayload, hg]
        exact ih hrest
      | some v =>
        exfalso
        simp [inboundHasUserAction, dictMem, hg] at hd

theorem extract_ok_none_of_no_userAction {parts : List InboundPart}
    (h : ∀ part ∈ parts, inboundHasUserAction part = false) :
    extractUserActionDirective parts = Except.ok none := by
  unfold extractUserActionDirective
  rw [findUserActionPayload_none h]

/-! ## The claims -/

/-- C1 (counterexample): the spec claims recovery of a valid JSON array
preceded by *arbitrary* prose, but prose containing a bracket derails the
recovery: for the prose "I \x7bthink\x7d so: " followed by the valid array
"[1]", the routine starts parsing at the `\x7b` of the prose, both parse
stages fail, and the whole text comes back as a plain-text fallback instead
of the array records. -/
theorem c1_counterexample :
    ∃ p a t : PyStr, ∃ elems : List JValue,
      rawDecode a = some (JValue.jarr elems, []) ∧
      process_llm_output_to_a2ui_parts ((p ++ a) ++ t) ≠ elems.map create_a2ui_part := by
  refine ⟨ofStr "I \x7bthink\x7d so: ", ofStr "[1]", [], [JValue.jnum (ofStr "1")], ?_, ?_⟩
  · decide
  · decide

/-- C1 (amended): for every LLM output of the form prose ++ array ++ trailer
where the prose contains no `\x7b` or `\x5b` and the array is a complete JSON
array, `process_llm_output_to_a2ui_parts` returns exactly one A2UI part per
array element, in order. -/
theorem c1_amended {p a t : PyStr} {elems : List JValue}
    (hp : ∀ c ∈ p, c ≠ 123 ∧ c ≠ 91)
    (ha : rawDecode a = some (JValue.jarr elems, [])) :
    process_llm_output_to_a2ui_parts ((p ++ a) ++ t) = elems.map create_a2ui_part := by
  obtain ⟨a0, ha0⟩ := rawDecode_arr_head ha
  obtain ⟨a1, ha1⟩ := rawDecode_arr_last ha
  have hq : ∀ c ∈ pyLStrip p, ((c == 123) || (c == 91)) = false := by
    intro c hc
    obtain ⟨h1, h2⟩ := hp c ((List.dropWhile_sublist pySpace).subset hc)
    simp [h1, h2]
  have hne : (p ++ a) ++ t ≠ [] := by
    rw [ha0]; simp
  have hr : pyRStrip ((p ++ a) ++ t) = (p ++ a) ++ pyRStrip t := by
    have hpa : p ++ a = (p ++ a1) ++ [93] := by
      rw [ha1, List.append_assoc]
    rw [hpa, pyRStrip_append (by decide), ← hpa]
  have hl : pyStrip ((p ++ a) ++ t) =
      pyLStrip p ++ 91 :: (a0 ++ pyRStrip t) := by
    unfold pyStrip
    rw [hr, List.append_assoc, ha0, List.cons_append,
      pyLStrip_append (by decide)]
  have hrec : recoveredData (a ++ pyRStrip t) = some (JValue.jarr elems) := by
    unfold recoveredData
    rw [rawDecode_arr_append ha]
  simp only [process_llm_output_to_a2ui_parts]
  rw [if_neg hne, hl, findFirstBracket_skip hq]
  simp only []
  rw [List.drop_left,
    show (91 :: (a0 ++ pyRStrip t) : PyStr) = a ++ pyRStrip t by
      rw [ha0, List.cons_append],
    hrec]
  simp only [a2ui_messages_of]

/-- C1 (amended, witness): "Sure: [1, 2] done" recovers the two records of
the array. -/
theorem c1_amended_witness :
    process_llm_output_to_a2ui_parts
        ((ofStr "Sure: " ++ ofStr "[1, 2]") ++ ofStr " done") =
      [JValue.jnum (ofStr "1"), JValue.jnum (ofStr "2")].map create_a2ui_part :=
  c1_amended (by decide) (by decide)

/-- C2: the spec demands that `cancel` always produce the
unsupported-operation signal, but `agent_executor.py` never imports or
defines `ServerError`, so line 173 raises `NameError` before any
`ServerError(UnsupportedOperationError())` can be constructed: the call
never yields the unsupported-operation signal (and never changes task
state, there being no task-state code in `cancel` at all). -/
theorem c2_cancel_raises_nameerror :
    A2UIAgentExecutor_cancel = CancelOutcome.raisesNameError "ServerError" ∧
    A2UIAgentExecutor_cancel ≠ CancelOutcome.raisesServerErrorUnsupportedOperation := by
  constructor
  · decide
  · decide

/-- C3 (counterexample): the spec promises the fallback text part carries
the original input verbatim, but the code strips the input first (line 28)
and builds the fallback from the stripped text: for " no json here "
(spaces around) the single text part holds "no json here", not the
original. -/
theorem c3_counterexample :
    ∃ s : PyStr, findFirstBracket (pyStrip s) = none ∧
      process_llm_output_to_a2ui_parts s ≠ [A2APart.textPart s] := by
  refine ⟨ofStr " no json here ", ?_, ?_⟩
  · decide
  · decide

/-- C3 (amended): for every non-empty input on which recovery fails —
either no bracket occurs in the stripped text, or the two-stage parse from
the first bracket yields nothing — the routine returns exactly one plain
text part carrying the *stripped* input (and, being a total function, never
raises). -/
theorem c3_amended (s : PyStr) (hs : s ≠ [])
    (hf : ∀ i, findFirstBracket (pyStrip s) = some i →
      recoveredData ((pyStrip s).drop i) = none) :
    process_llm_output_to_a2ui_parts s = [A2APart.textPart (pyStrip s)] := by
  simp only [process_llm_output_to_a2ui_parts]
  rw [if_neg hs]
  cases hfb : findFirstBracket (pyStrip s) with
  | none => rfl
  | some i =>
    simp only []
    rw [hf i hfb]

/-- C3 (amended, witness): "no json here" comes back as one text part
holding its stripped (here: unchanged) text. -/
theorem c3_amended_witness :
    process_llm_output_to_a2ui_parts (ofStr "no json here") =
      [A2APart.textPart (pyStrip (ofStr "no json here"))] :=
  c3_amended (ofStr "no json here") (by decide)
    (fun i hi => by
      rw [show findFirstBracket (pyStrip (ofStr "no json here")) = none by decide] at hi
      exact nomatch hi)

/-- C4: for every interaction whose action extraction does not raise and
which is non-empty (non-empty text or an action present), `execute`
activates the extension, creates the task exactly when none exists, moves
it to `working`, and ends with exactly one terminal status: `completed`
with the recovered parts on success, `failed` with a single
"Error: ..." text part when the LLM invocation raises. -/
theorem c4_execute_lifecycle (ctx : ExecCtx) (llm : PyStr → LlmOutcome) (oa : Option PyStr)
    (hoa : extractUserActionDirective ctx.messageParts = Except.ok oa)
    (hne : ¬(ctx.userInputText = [] ∧ oa = none)) :
    execute ctx llm =
      Except.ok ([TaskEvent.extensionActivated] ++
        (if ctx.hasCurrentTask then [] else [TaskEvent.taskCreated]) ++
        [TaskEvent.statusWorking] ++
        (match llm (promptOf ctx.userInputText oa) with
          | .exn m => [TaskEvent.statusFailed [A2APart.textPart (ofStr "Error: " ++ m)]]
          | .ok t => [TaskEvent.statusCompleted (process_llm_output_to_a2ui_parts t)])) := by
  unfold execute
  rw [hoa]
  show (if ctx.userInputText = [] ∧ oa = none then (pure [] : Except PyStr (List TaskEvent))
    else _) = _
  rw [if_neg hne]
  cases hllm : llm (promptOf ctx.userInputText oa) with
  | exn m => rfl
  | ok t => rfl

/-- C4 (witness): a plain "hi" with an existing task and a succeeding LLM
run yields working then completed. -/
theorem c4_execute_lifecycle_witness :
    execute ⟨ofStr "hi", [], true⟩ (fun _ => LlmOutcome.ok (ofStr "[1]")) =
      Except.ok [TaskEvent.extensionActivated, TaskEvent.statusWorking,
        TaskEvent.statusCompleted [A2APart.a2uiPart (JValue.jnum (ofStr "1"))]] :=
  (c4_execute_lifecycle ⟨ofStr "hi", [], true⟩ (fun _ => LlmOutcome.ok (ofStr "[1]"))
    none (by decide) (by decide)).trans (by decide)

/-- C5: recovery is two-stage in a fixed order — a successful `raw_decode`
starting at the first bracket is used as is (trailing text ignored), the
strict parse up to the last `\x7d`/`\x5d` is attempted only when
`raw_decode` fails — and the concrete output
"Sure! \x7b\"messages\":[\x7b\"a\":1\x7d]\x7d" yields exactly the one
record \x7b"a":1\x7d. -/
theorem c5_two_stage_recovery :
    (∀ (s : PyStr) (v : JValue) (r : PyStr),
      rawDecode s = some (v, r) → recoveredData s = some v) ∧
    (∀ s : PyStr, rawDecode s = none →
      recoveredData s =
        match lastClosing s with
        | none => none
        | some k => pyLoads (s.take (k + 1))) ∧
    process_llm_output_to_a2ui_parts (ofStr "Sure! \x7b\"messages\":[\x7b\"a\":1\x7d]\x7d") =
      [A2APart.a2uiPart (JValue.jobj [(ofStr "a", JValue.jnum (ofStr "1"))])] := by
  refine ⟨?_, ?_, by decide⟩
  · intro s v r h
    unfold recoveredData
    rw [h]
  · intro s h
    unfold recoveredData
    rw [h]

/-- C6: normalization of a parsed value — an array gives its elements in
order; an object whose `messages` member is a list gives that list's
elements; any other object is a single record, as on \x7b"id":"x"\x7d. -/
theorem c6_normalization :
    (∀ xs : List JValue, a2ui_messages_of (JValue.jarr xs) = some xs) ∧
    (∀ (ps : List (PyStr × JValue)) (ms : List JValue),
      dictGet ps (ofStr "messages") = some (JValue.jarr ms) →
      a2ui_messages_of (JValue.jobj ps) = some ms) ∧
    (∀ ps : List (PyStr × JValue),
      (∀ ms : List JValue, dictGet ps (ofStr "messages") ≠ some (JValue.jarr ms)) →
      a2ui_messages_of (JValue.jobj ps) = some [JValue.jobj ps]) ∧
    process_llm_output_to_a2ui_parts (ofStr "\x7b\"id\":\"x\"\x7d") =
      [A2APart.a2uiPart (JValue.jobj [(ofStr "id", JValue.jstr (ofStr "x"))])] := by
  refine ⟨fun xs => rfl, ?_, ?_, by decide⟩
  · intro ps ms h
    simp only [a2ui_messages_of, h]
  · intro ps h
    simp only [a2ui_messages_of]

/-- C7: only the first data part with a `userAction` key feeds the
extraction (parts without one are skipped, later parts ignored); each
context entry is unwrapped by its value tag — `literalString`,
`literalNumber`, `literalBoolean` as the carried value, `path` as the
"\x7bpath: ...\x7d" placeholder — and the directive for name "select" with
context [\x7bkey: "color", value: \x7bliteralString: "red"\x7d\x7d]
contains both `select` and the mapping text \x7b"color": "red"\x7d. -/
theorem c7_user_action_extraction :
    (∀ (d : List (PyStr × JValue)) (pl : JValue) (rest : List InboundPart),
      dictGet d (ofStr "userAction") = some pl →
      findUserActionPayload (InboundPart.dataPart d :: rest) = some pl) ∧
    (∀ (part : InboundPart) (rest : List InboundPart),
      inboundHasUserAction part = false →
      findUserActionPayload (part :: rest) = findUserActionPayload rest) ∧
    (∀ (acc : List (CtxKey × PyVal)) (k s : PyStr),
      unwrapCtxItem acc (JValue.jobj [(ofStr "key", JValue.jstr k),
        (ofStr "value", JValue.jobj [(ofStr "literalString", JValue.jstr s)])]) =
      Except.ok (ctxInsert acc (some (JValue.jstr k)) (PyVal.fromJson (JValue.jstr s)))) ∧
    (∀ (acc : List (CtxKey × PyVal)) (k lex : PyStr),
      unwrapCtxItem acc (JValue.jobj [(ofStr "key", JValue.jstr k),
        (ofStr "value", JValue.jobj [(ofStr "literalNumber", JValue.jnum lex)])]) =
      Except.ok (ctxInsert acc (some (JValue.jstr k)) (PyVal.fromJson (JValue.jnum lex)))) ∧
    (∀ (acc : List (CtxKey × PyVal)) (k : PyStr) (b : Bool),
      unwrapCtxItem acc (JValue.jobj [(ofStr "key", JValue.jstr k),
        (ofStr "value", JValue.jobj [(ofStr "literalBoolean", JValue.jbool b)])]) =
      Except.ok (ctxInsert acc (some (JValue.jstr k)) (PyVal.fromJson (JValue.jbool b)))) ∧
    (∀ (acc : List (CtxKey × PyVal)) (k ps : PyStr),
      unwrapCtxItem acc (JValue.jobj [(ofStr "key", JValue.jstr k),
        (ofStr "value", JValue.jobj [(ofStr "path", JValue.jstr ps)])]) =
      Except.ok (ctxInsert acc (some (JValue.jstr k))
        (PyVal.pyString (ofStr "\x7bpath: " ++ ps ++ ofStr "\x7d")))) ∧
    (∃ dstr : PyStr,
      extractUserActionDirective
        [InboundPart.dataPart [(ofStr "userAction", JValue.jobj
          [(ofStr "name", JValue.jstr (ofStr "select")),
           (ofStr "context", JValue.jarr [JValue.jobj
             [(ofStr "key", JValue.jstr (ofStr "color")),
              (ofStr "value", JValue.jobj
                [(ofStr "literalString", JValue.jstr (ofStr "red"))])]])])]] =
        Except.ok (some dstr) ∧
      listContains (ofStr "select") dstr = true ∧
      listContains (ofStr "\x7b\"color\": \"red\"\x7d") dstr = true) := by
  refine ⟨?_, ?_, fun acc k s => rfl, fun acc k lex => rfl, fun acc k b => rfl,
    fun acc k ps => rfl, ?_⟩
  · intro d pl rest h
    simp only [findUserActionPayload, h]
  · intro part rest h
    cases part with
    | nonDataPart => rfl
    | dataPart d =>
      cases hg : dictGet d (ofStr "userAction") with
      | none => simp only [findUserActionPayload, hg]
      | some v =>
        exfalso
        simp [inboundHasUserAction, dictMem, hg] at h
  · refine ⟨userActionDirective (some (JValue.jstr (ofStr "select")))
      [(some (JValue.jstr (ofStr "color")), PyVal.fromJson (JValue.jstr (ofStr "red")))],
      ?_, ?_, ?_⟩
    · decide
    · decide
    · decide

/-- C8: an interaction with empty text and no `userAction` data part makes
`execute` return with an empty event trace — no extension activation, no
task creation, no status write. -/
theorem c8_empty_interaction_noop (ctx : ExecCtx) (llm : PyStr → LlmOutcome)
    (ht : ctx.userInputText = [])
    (hp : ∀ part ∈ ctx.messageParts, inboundHasUserAction part = false) :
    execute ctx llm = Except.ok [] := by
  unfold execute
  rw [extract_ok_none_of_no_userAction hp]
  show (if ctx.userInputText = [] ∧ (none : Option PyStr) = none then
    (pure [] : Except PyStr (List TaskEvent)) else _) = _
  rw [if_pos ⟨ht, rfl⟩]
  rfl

/-- C8 (witness): a message holding only a non-data part and no text is a
no-op. -/
theorem c8_empty_interaction_noop_witness :
    execute ⟨[], [InboundPart.nonDataPart], false⟩ (fun _ => LlmOutcome.ok []) =
      Except.ok [] :=
  c8_empty_interaction_noop ⟨[], [InboundPart.nonDataPart], false⟩
    (fun _ => LlmOutcome.ok []) rfl (by decide)

/-- C9: the empty LLM output yields no parts at all. -/
theorem c9_empty_output : process_llm_output_to_a2ui_parts (ofStr "") = [] := by decide

/-- C10: a non-empty all-whitespace output passes the `if not llm_output`
gate (it is not the empty string), is stripped to nothing, and since no
bracket is found the routine returns one text part whose text is the empty
stripped string — not the empty part list. -/
theorem c10_whitespace_only (s : PyStr) (hne : s ≠ [])
    (hws : ∀ c ∈ s, pySpace c = true) :
    process_llm_output_to_a2ui_parts s = [A2APart.textPart []] := by
  simp only [process_llm_output_to_a2ui_parts]
  rw [if_neg hne, pyStrip_all_ws hws]
  rfl

/-- C10 (witness): two spaces come back as one empty text part. -/
theorem c10_whitespace_only_witness :
    process_llm_output_to_a2ui_parts (ofStr "  ") = [A2APart.textPart []] :=
  c10_whitespace_only (ofStr "  ") (by decide) (by decide)

end A2UIExec
